import Mathlib

/-
Verification of the alignment-stage orchestration of phylomizer
(source/module_alignments.py, source/utils.py, source/pipeline.py).

Shallow embedding conventions:
* file contents that the Python code reads through Bio.SeqIO are modelled as
  already-parsed FASTA records (identifier plus residue characters);
* the file system is an association list from path to size in bytes, which is
  all the orchestration code inspects (os.path.isfile / os.path.getsize);
* external tools (aligners, readAl, trimAl) are black boxes behind a
  command-line contract, modelled by an oracle that says whether a command
  exits with status zero and whether the post-hoc consistency check passes;
* sys.exit and dict KeyError are modelled by an explicit outcome type.
-/

namespace Phylomizer

/-- A file system as an association list from path to size in bytes. -/
abbrev FS := List (String × Nat)

/-- First-match lookup of a path in the file system. -/
def fsGet : FS → String → Option Nat
  | [], _ => none
  | (p, n) :: rest, q => if p = q then some n else fsGet rest q

/-- Write (create or overwrite) a file of the given size. -/
def fsWrite : FS → String → Nat → FS
  | [], q, m => [(q, m)]
  | (p, n) :: rest, q, m =>
    if p = q then (q, m) :: rest else (p, n) :: fsWrite rest q m

/-- utils.py, lookForFile: the file exists and its size is greater than 0. -/
def lookForFile (fs : FS) (inFile : String) : Bool :=
  match fsGet fs inFile with
  | none => false
  | some n => decide (n > 0)

/-- Modelled from the spec: the lookForFile variant of module_utils (a file of
this repository that is absent from src), which takes a retry count and
re-checks visibility of the file a bounded number of times before concluding
failure, to tolerate write-visibility lag on networked storage.  The
time-indexed `visible` argument says whether the file is on storage at the
given retry instant. -/
def lookForFile_attempts (visible : Nat → Bool) (attempts : Nat) : Bool :=
  (List.range attempts).any visible

/-- A parsed FASTA record: identifier and residue characters. -/
abbrev FastaRecord := String × List Char

/-- A parsed FASTA file: the records in file order. -/
abbrev FastaFile := List FastaRecord

/-- module_alignments.check_count_sequences over parsed records: the number of
records, whether any upper-cased residue string contains a U (selenocysteine)
and whether any contains an O (pyrrolysine). -/
def check_count_sequences (recs : FastaFile) : Nat × Bool × Bool :=
  (recs.length,
   recs.any (fun r => r.2.any (fun c => c.toUpper = 'U')),
   recs.any (fun r => r.2.any (fun c => c.toUpper = 'O')))

/- ***** Rare-residue substitution core (replaceRareAminoAcids) ***** -/

/-- The subs dict built with setdefault: while iterating the pairs, a pair
whose source code was already seen is dropped; iteration order of the
resulting dict is modelled as insertion order. -/
def dedupTableAux (seen : List Char) : List (Char × Char) → List (Char × Char)
  | [] => []
  | (a, b) :: rest =>
    if a ∈ seen then dedupTableAux seen rest
    else (a, b) :: dedupTableAux (seen ++ [a]) rest

/-- The subs dict of replaceRareAminoAcids built from the pair list. -/
def dedupTable (t : List (Char × Char)) : List (Char × Char) :=
  dedupTableAux [] t

/-- The effect of the seq.replace chain of replaceRareAminoAcids on a single
character.  Codes in the substitution table are single letters (data model of
the spec), so str.replace is a character map. -/
def subChar (t : List (Char × Char)) (c : Char) : Char :=
  t.foldl (fun c p => if c = p.1 then p.2 else c) c

/-- One seq.replace pass per table entry, applied over the whole sequence. -/
def applySubs (t : List (Char × Char)) (s : List Char) : List Char :=
  t.foldl (fun s p => s.map (fun c => if c = p.1 then p.2 else c)) s

/-- comb.split(":")[::-1], the pair swap used by the back direction. -/
def swapPair (p : Char × Char) : Char × Char := (p.2, p.1)

/-- The residue transformation of replaceRareAminoAcids with back = False. -/
def substituteSeq (table : List (Char × Char)) (s : List Char) : List Char :=
  applySubs (dedupTable table) s

/-- The residue transformation of replaceRareAminoAcids with back = True:
every pair of the table is swapped before the setdefault insertion. -/
def restoreSeq (table : List (Char × Char)) (s : List Char) : List Char :=
  applySubs (dedupTable (table.map swapPair)) s

/- ***** Consistency validator core (checkAlignment) ***** -/

/-- re.sub removing every non a-zA-Z character, then .upper(); the final
.strip() of the source is a no-op because no whitespace survives the filter. -/
def normSeq (s : List Char) : List Char :=
  (s.filter (fun c => c.isAlpha)).map Char.toUpper

/-- The incremental duplicate-checking read of one input file performed by
checkAlignment: none is returned on a repeated identifier, otherwise the
dictionary of normalized residue strings in insertion order. -/
def buildSeqDictAux (acc : List (String × List Char)) :
    FastaFile → Option (List (String × List Char))
  | [] => some acc
  | (i, s) :: rest =>
    if i ∈ acc.map Prod.fst then none
    else buildSeqDictAux (acc ++ [(i, normSeq s)]) rest

/-- Read a whole file into the identifier dictionary, duplicate-checking. -/
def buildSeqDict (f : FastaFile) : Option (List (String × List Char)) :=
  buildSeqDictAux [] f

/-- set(inSeqs_1.keys()) ^ set(inSeqs_2.keys()) == set(). -/
def sameKeySet (d1 d2 : List (String × List Char)) : Bool :=
  (d1.map Prod.fst).all (fun k => decide (k ∈ d2.map Prod.fst)) &&
  (d2.map Prod.fst).all (fun k => decide (k ∈ d1.map Prod.fst))

/-- First-match lookup in the identifier dictionary. -/
def lookupD : List (String × List Char) → String → Option (List Char)
  | [], _ => none
  | (i, s) :: rest, k => if i = k then some s else lookupD rest k

/-- The record comparison of checkAlignment after both files were read:
duplicate identifiers in either file fail, non-identical key sets fail, and
every identifier must map to the same normalized residue string. -/
def checkAlignmentSeqs (s1 s2 : FastaFile) : Bool :=
  match buildSeqDict s1 with
  | none => false
  | some d1 =>
    match buildSeqDict s2 with
    | none => false
    | some d2 =>
      if sameKeySet d1 d2
      then d1.all (fun kv => decide (lookupD d2 kv.1 = some kv.2))
      else false

/-- module_alignments.checkAlignment: the first file is checked for presence
once, the second with attempts = 5 (bounded retries, see lookForFile_attempts);
if either check fails the validator returns False, otherwise the two parsed
files are compared. -/
def checkAlignment (present1 : Bool) (s1 : FastaFile)
    (visible2 : Nat → Bool) (s2 : FastaFile) : Bool :=
  if !present1 || !lookForFile_attempts visible2 5 then false
  else checkAlignmentSeqs s1 s2

/- ***** Exit codes and file name tables ***** -/

/-- module_alignments.min_seqs_analysis: the default minimum number of
sequences, kept as the string literal of the source. -/
def min_seqs_analysis : String := "3"

/-- module_alignments.file_extension. -/
def file_extension : List (String × String) :=
  [("prank", "prk"), ("mafft", "mft"), ("kalign", "kal"), ("muscle", "msl"),
   ("clustalw", "clw"), ("t_coffee", "tce"), ("dialign_tx", "dtx"),
   ("clustal_omega", "clo")]

/-- module_alignments.exit_codes, exactly as written in the source. -/
def exit_codes : List (String × Nat) :=
  [("trimal", 82), ("readal", 81),
   ("prank", 92), ("mafft", 87), ("kalign", 89), ("muscle", 86),
   ("t_coffee", 90), ("m_coffee", 90), ("dialign_tx", 88), ("clustalw", 91),
   ("clustal_omega", 92),
   ("generic", 95)]

/-- exit_codes[label] as a total function (every label the code indexes with
is present in the table). -/
def exitCode (label : String) : Nat :=
  (exit_codes.lookup label).getD 0

/-- The dedicated exit status of the insufficient-sequences condition,
sys.exit(80) at line 153 of module_alignments.py. -/
def insufficient_seqs_code : Nat := 80

/- ***** Lemmas about the rare-residue substitution core ***** -/

lemma subChar_cons (a b : Char) (t : List (Char × Char)) (c : Char) :
    subChar ((a, b) :: t) c = subChar t (if c = a then b else c) := rfl

lemma subChar_not_src (t : List (Char × Char)) (c : Char)
    (h : ∀ p ∈ t, c ≠ p.1) : subChar t c = c := by
  induction t with
  | nil => rfl
  | cons p t ih =>
    rcases p with ⟨a, b⟩
    rw [subChar_cons, if_neg (h (a, b) (List.mem_cons_self _ _))]
    exact ih (fun q hq => h q (List.mem_cons_of_mem _ hq))

lemma subChar_mem (t : List (Char × Char)) (c : Char) :
    subChar t c = c ∨ subChar t c ∈ t.map Prod.snd := by
  induction t generalizing c with
  | nil => exact Or.inl rfl
  | cons p t ih =>
    rcases p with ⟨a, b⟩
    rw [subChar_cons]
    by_cases hc : c = a
    · rw [if_pos hc]
      rcases ih b with h | h
      · exact Or.inr (by rw [h]; simp)
      · exact Or.inr (by simp only [List.map_cons]; exact List.mem_cons_of_mem _ h)
    · rw [if_neg hc]
      rcases ih c with h | h
      · exact Or.inl h
      · exact Or.inr (by simp only [List.map_cons]; exact List.mem_cons_of_mem _ h)

lemma applySubs_eq_map (t : List (Char × Char)) (s : List Char) :
    applySubs t s = s.map (subChar t) := by
  induction t generalizing s with
  | nil =>
    have h : ∀ c ∈ s, subChar [] c = id c := fun c _ => rfl
    rw [show applySubs [] s = s from rfl, List.map_congr_left h, List.map_id]
  | cons p t ih =>
    rw [show applySubs (p :: t) s
        = applySubs t (s.map (fun c => if c = p.1 then p.2 else c)) from rfl,
      ih, List.map_map]
    rfl

lemma roundChar (t : List (Char × Char))
    (hdst : (t.map Prod.snd).Nodup)
    (hdisj : ∀ p ∈ t, ∀ q ∈ t, p.2 ≠ q.1)
    (c : Char) (hc : ∀ p ∈ t, p.2 ≠ c) :
    subChar (t.map swapPair) (subChar t c) = c := by
  induction t generalizing c with
  | nil => rfl
  | cons p t ih =>
    rcases p with ⟨a, b⟩
    simp only [List.map_cons] at hdst ⊢
    have hbt : b ∉ t.map Prod.snd := (List.nodup_cons.mp hdst).1
    have hdt : (t.map Prod.snd).Nodup := (List.nodup_cons.mp hdst).2
    rw [show swapPair (a, b) = (b, a) from rfl]
    have hinner := subChar_cons a b t c
    rw [hinner]
    by_cases hca : c = a
    · rw [if_pos hca]
      have hb : subChar t b = b := by
        apply subChar_not_src
        intro q hq
        exact hdisj (a, b) (List.mem_cons_self _ _) q (List.mem_cons_of_mem _ hq)
      rw [hb, subChar_cons b a (t.map swapPair) b, if_pos rfl]
      rw [subChar_not_src (t.map swapPair) a ?hnotin]
      · exact hca.symm
      case hnotin =>
        intro q hq
        rcases List.mem_map.mp hq with ⟨q0, hq0, hqeq⟩
        intro haq
        exact hdisj q0 (List.mem_cons_of_mem _ hq0) (a, b) (List.mem_cons_self _ _)
          (by rw [show q0.2 = q.1 from by rw [← hqeq]; rfl, ← haq])
    · rw [if_neg hca]
      have hne : subChar t c ≠ b := by
        rcases subChar_mem t c with h | h
        · rw [h]; exact fun e => hc (a, b) (List.mem_cons_self _ _) e.symm
        · exact fun e => hbt (e ▸ h)
      rw [subChar_cons b a (t.map swapPair) (subChar t c), if_neg hne]
      apply ih hdt
      · intro p hp q hq
        exact hdisj p (List.mem_cons_of_mem _ hp) q (List.mem_cons_of_mem _ hq)
      · intro p hp
        exact hc p (List.mem_cons_of_mem _ hp)

lemma dedupTableAux_self (t : List (Char × Char)) :
    ∀ seen : List Char, (∀ p ∈ t, p.1 ∉ seen) → (t.map Prod.fst).Nodup →
      dedupTableAux seen t = t := by
  induction t with
  | nil => intro seen _ _; rfl
  | cons p rest ih =>
    intro seen hseen hnd
    rcases p with ⟨a, b⟩
    simp only [List.map_cons, List.nodup_cons] at hnd
    rw [dedupTableAux, if_neg (hseen (a, b) (List.mem_cons_self _ _))]
    congr 1
    apply ih
    · intro q hq
      rw [List.mem_append]
      rintro (h | h)
      · exact hseen q (List.mem_cons_of_mem _ hq) h
      · rw [List.mem_singleton] at h
        exact hnd.1 (h ▸ List.mem_map_of_mem Prod.fst hq)
    · exact hnd.2

lemma dedupTable_self (t : List (Char × Char))
    (h : (t.map Prod.fst).Nodup) : dedupTable t = t :=
  dedupTableAux_self t [] (by simp) h

/-- C5 counterexample input: the table maps U to X and the record already
contains an X, so restoring maps the original X back to a spurious U. -/
theorem c5_substitution_not_inverse :
    ('U' ∈ ['U', 'X'] ∨ 'O' ∈ ['U', 'X']) ∧
    restoreSeq [('U', 'X')] (substituteSeq [('U', 'X')] ['U', 'X']) ≠ ['U', 'X'] := by
  decide

/-- C5 (amended): for a record containing a rare residue code and a
substitution table with pairwise distinct source codes, pairwise distinct
replacement codes, no code both a source and a replacement, and no replacement
code occurring in the original record, substituting and then restoring yields
the original residue string exactly. -/
theorem c5_substitute_restore_round_trip
    (table : List (Char × Char)) (s : List Char)
    (hsrc : (table.map Prod.fst).Nodup)
    (hdst : (table.map Prod.snd).Nodup)
    (hdisj : ∀ p ∈ table, ∀ q ∈ table, p.2 ≠ q.1)
    (hfresh : ∀ p ∈ table, p.2 ∉ s)
    (hrare : 'U' ∈ s ∨ 'O' ∈ s) :
    restoreSeq table (substituteSeq table s) = s := by
  have hswap : (table.map swapPair).map Prod.fst = table.map Prod.snd := by
    rw [List.map_map]; rfl
  rw [substituteSeq, restoreSeq, dedupTable_self table hsrc,
    dedupTable_self (table.map swapPair) (by rw [hswap]; exact hdst),
    applySubs_eq_map, applySubs_eq_map, List.map_map]
  have hpt : ∀ c ∈ s, (subChar (table.map swapPair) ∘ subChar table) c = c := by
    intro c hcs
    exact roundChar table hdst hdisj c
      (fun p hp e => hfresh p hp (by rw [e]; exact hcs))
  have hid : ∀ c ∈ s, (subChar (table.map swapPair) ∘ subChar table) c = id c :=
    fun c hcs => hpt c hcs
  rw [List.map_congr_left hid, List.map_id]

/-- C5 witness: the round trip at the concrete table U to B and a concrete
record containing U. -/
theorem c5_round_trip_witness :
    restoreSeq [('U', 'B')] (substituteSeq [('U', 'B')] ['M', 'U', 'A']) =
      ['M', 'U', 'A'] :=
  c5_substitute_restore_round_trip [('U', 'B')] ['M', 'U', 'A']
    (by decide) (by decide) (by decide) (by decide) (Or.inl (by decide))

/- ***** Lemmas about the consistency validator ***** -/

/-- The dictionary checkAlignment builds when no identifier repeats. -/
def normDict (f : FastaFile) : List (String × List Char) :=
  f.map (fun r => (r.1, normSeq r.2))

lemma buildSeqDictAux_eq (f : FastaFile) :
    ∀ acc : List (String × List Char),
      buildSeqDictAux acc f =
        (if (acc.map Prod.fst ++ f.map Prod.fst).Nodup
         then some (acc ++ normDict f) else none) ∨
      ¬ (acc.map Prod.fst).Nodup := by
  induction f with
  | nil =>
    intro acc
    by_cases hacc : (acc.map Prod.fst).Nodup
    · left
      rw [show buildSeqDictAux acc [] = some acc from rfl]
      simp [normDict, hacc]
    · right; exact hacc
  | cons r rest ih =>
    intro acc
    by_cases hacc : (acc.map Prod.fst).Nodup
    · left
      rcases r with ⟨i, s⟩
      rw [show buildSeqDictAux acc ((i, s) :: rest)
          = (if i ∈ acc.map Prod.fst then none
             else buildSeqDictAux (acc ++ [(i, normSeq s)]) rest) from rfl]
      by_cases hmem : i ∈ acc.map Prod.fst
      · rw [if_pos hmem, if_neg]
        intro hnd
        simp only [List.map_cons] at hnd
        exact (List.disjoint_of_nodup_append hnd) hmem (List.mem_cons_self _ _)
      · rw [if_neg hmem]
        have hacc2 : ((acc ++ [(i, normSeq s)]).map Prod.fst).Nodup := by
          simp only [List.map_append, List.map_cons, List.map_nil]
          rw [List.nodup_append]
          refine ⟨hacc, List.nodup_singleton i, ?_⟩
          intro x hx hx2
          rw [List.mem_singleton] at hx2
          exact hmem (hx2 ▸ hx)
        rcases ih (acc ++ [(i, normSeq s)]) with h | h
        · rw [h]
          have hkeys : (acc ++ [(i, normSeq s)]).map Prod.fst ++ rest.map Prod.fst
              = acc.map Prod.fst ++ ((i, s) :: rest).map Prod.fst := by
            simp only [List.map_append, List.map_cons, List.map_nil]
            rw [List.append_assoc, List.singleton_append]
          rw [hkeys]
          have hvals : (acc ++ [(i, normSeq s)]) ++ normDict rest
              = acc ++ normDict ((i, s) :: rest) := by
            rw [List.append_assoc, List.singleton_append]
            rfl
          rw [hvals]
        · exact absurd hacc2 h
    · right; exact hacc

lemma buildSeqDict_eq (f : FastaFile) :
    buildSeqDict f =
      (if (f.map Prod.fst).Nodup then some (normDict f) else none) := by
  rcases buildSeqDictAux_eq f [] with h | h
  · rw [buildSeqDict, h]
    simp
  · exact absurd (by simp) h

lemma normDict_keys (f : FastaFile) :
    (normDict f).map Prod.fst = f.map Prod.fst := by
  rw [normDict, List.map_map]
  rfl

lemma lookupD_normDict (f : FastaFile) (hnd : (f.map Prod.fst).Nodup)
    (i : String) (v : List Char) (hm : (i, v) ∈ f) :
    lookupD (normDict f) i = some (normSeq v) := by
  induction f with
  | nil => cases hm
  | cons r rest ih =>
    rcases r with ⟨j, w⟩
    simp only [List.map_cons, List.nodup_cons] at hnd
    rw [show normDict ((j, w) :: rest) = (j, normSeq w) :: normDict rest from rfl,
      show lookupD ((j, normSeq w) :: normDict rest) i
        = (if j = i then some (normSeq w) else lookupD (normDict rest) i) from rfl]
    by_cases hji : j = i
    · rw [if_pos hji]
      rcases List.mem_cons.mp hm with h | h
      · rw [(Prod.mk.injEq .. ▸ h : i = j ∧ v = w).2]
      · exact absurd (hji ▸ List.mem_map_of_mem Prod.fst h) hnd.1
    · rw [if_neg hji]
      rcases List.mem_cons.mp hm with h | h
      · exact absurd ((Prod.mk.injEq .. ▸ h : i = j ∧ v = w).1.symm) hji
      · exact ih hnd.2 h

lemma sameKeySet_true_iff (d1 d2 : List (String × List Char)) :
    sameKeySet d1 d2 = true ↔
      ∀ k, k ∈ d1.map Prod.fst ↔ k ∈ d2.map Prod.fst := by
  rw [sameKeySet, Bool.and_eq_true, List.all_eq_true, List.all_eq_true]
  constructor
  · rintro ⟨h1, h2⟩ k
    exact ⟨fun hk => of_decide_eq_true (h1 k hk),
      fun hk => of_decide_eq_true (h2 k hk)⟩
  · intro h
    exact ⟨fun k hk => decide_eq_true ((h k).mp hk),
      fun k hk => decide_eq_true ((h k).mpr hk)⟩

lemma checkAlignmentSeqs_eq (s1 s2 : FastaFile) :
    checkAlignmentSeqs s1 s2 =
      (if (s1.map Prod.fst).Nodup then
        (if (s2.map Prod.fst).Nodup then
          (if sameKeySet (normDict s1) (normDict s2)
           then (normDict s1).all
             fun kv => decide (lookupD (normDict s2) kv.1 = some kv.2)
           else false)
         else false)
       else false) := by
  rw [checkAlignmentSeqs, buildSeqDict_eq s1, buildSeqDict_eq s2]
  by_cases hn1 : (s1.map Prod.fst).Nodup
  · rw [if_pos hn1, if_pos hn1]
    by_cases hn2 : (s2.map Prod.fst).Nodup
    · rw [if_pos hn2, if_pos hn2]
    · rw [if_neg hn2, if_neg hn2]
  · rw [if_neg hn1, if_neg hn1]

/-- C1: for readable input files (both present within the bounded wait), the
consistency validator returns true exactly when neither file repeats an
identifier, the identifier sets coincide, and every identifier maps to the
same residue string after dropping non-alphabetic characters and
upper-casing. -/
theorem c1_checkAlignment_iff (p1 : Bool) (s1 s2 : FastaFile)
    (vis2 : Nat → Bool)
    (h1 : p1 = true) (h2 : lookForFile_attempts vis2 5 = true) :
    checkAlignment p1 s1 vis2 s2 = true ↔
      ((s1.map Prod.fst).Nodup ∧ (s2.map Prod.fst).Nodup ∧
       (∀ i, i ∈ s1.map Prod.fst ↔ i ∈ s2.map Prod.fst) ∧
       (∀ i v1 v2, (i, v1) ∈ s1 → (i, v2) ∈ s2 → normSeq v1 = normSeq v2)) := by
  subst h1
  rw [checkAlignment, h2]
  simp only [Bool.not_true, Bool.or_self]
  rw [if_neg Bool.false_ne_true, checkAlignmentSeqs_eq s1 s2]
  by_cases hn1 : (s1.map Prod.fst).Nodup
  · rw [if_pos hn1]
    by_cases hn2 : (s2.map Prod.fst).Nodup
    · rw [if_pos hn2]
      by_cases hks : sameKeySet (normDict s1) (normDict s2) = true
      · rw [if_pos hks]
        have hkeys : ∀ i, i ∈ s1.map Prod.fst ↔ i ∈ s2.map Prod.fst := by
          have := (sameKeySet_true_iff _ _).mp hks
          intro i
          rw [← normDict_keys s1, ← normDict_keys s2]
          exact this i
        rw [List.all_eq_true]
        constructor
        · intro hall
          refine ⟨hn1, hn2, hkeys, ?_⟩
          intro i v1 v2 m1 m2
          have hm : ((i, normSeq v1) : String × List Char) ∈ normDict s1 :=
            List.mem_map_of_mem _ m1
          have e1 := of_decide_eq_true (hall _ hm)
          have e2 := lookupD_normDict s2 hn2 i v2 m2
          rw [e2] at e1
          exact (Option.some.inj e1).symm
        · rintro ⟨-, -, -, hres⟩
          intro kv hkv
          rcases List.mem_map.mp hkv with ⟨⟨i, v1⟩, hm1, hkveq⟩
          have hik : i ∈ s2.map Prod.fst :=
            (hkeys i).mp (List.mem_map_of_mem _ hm1)
          rcases List.mem_map.mp hik with ⟨⟨i2, v2⟩, hm2, hieq⟩
          have hm2i : (i, v2) ∈ s2 := by
            have hii : i2 = i := hieq
            rw [← hii]
            exact hm2
          have e2 := lookupD_normDict s2 hn2 i v2 hm2i
          apply decide_eq_true
          rw [← hkveq]
          show lookupD (normDict s2) i = some (normSeq v1)
          rw [e2, hres i v1 v2 hm1 hm2i]
      · rw [if_neg hks]
        constructor
        · intro h; cases h
        · rintro ⟨-, -, hkeys, -⟩
          exfalso
          apply hks
          apply (sameKeySet_true_iff _ _).mpr
          intro k
          rw [normDict_keys s1, normDict_keys s2]
          exact hkeys k
    · rw [if_neg hn2]
      constructor
      · intro h; cases h
      · rintro ⟨-, h, -, -⟩; exact absurd h hn2
  · rw [if_neg hn1]
    constructor
    · intro h; cases h
    · rintro ⟨h, -, -, -⟩; exact absurd h hn1

/-- C1 witness: a concrete pair of readable files that differ only in case,
gaps and a non-alphabetic character, accepted by the validator. -/
theorem c1_checkAlignment_witness :
    checkAlignment true [("seqA", ['M', '-', 'x'])] (fun _ => true)
      [("seqA", ['m', 'X'])] = true := by
  refine (c1_checkAlignment_iff true _ _ _ rfl (by decide)).mpr
    ⟨by decide, by decide, fun i => Iff.rfl, ?_⟩
  intro i v1 v2 hm1 hm2
  rw [List.mem_singleton] at hm1 hm2
  rw [(Prod.mk.injEq .. ▸ hm1 : i = "seqA" ∧ v1 = ['M', '-', 'x']).2,
    (Prod.mk.injEq .. ▸ hm2 : i = "seqA" ∧ v2 = ['m', 'X']).2]
  decide

/-- C7: when the second file never becomes visible during the five bounded
retries, the validator concludes failure and returns false (it is a total
Boolean function, so it cannot raise). -/
theorem c7_checkAlignment_waits_then_false (p1 : Bool) (s1 s2 : FastaFile)
    (vis2 : Nat → Bool) (h : ∀ t, t < 5 → vis2 t = false) :
    checkAlignment p1 s1 vis2 s2 = false := by
  have hl : lookForFile_attempts vis2 5 = false := by
    rw [lookForFile_attempts]
    rw [List.any_eq_false]
    intro t ht
    rw [List.mem_range] at ht
    rw [h t ht]
    exact Bool.false_ne_true
  rw [checkAlignment, hl]
  simp

/-- C7 witness: the validator at a concrete never-visible second file. -/
theorem c7_checkAlignment_witness :
    checkAlignment true [("seqA", ['M'])] (fun _ => false)
      [("seqA", ['M'])] = false :=
  c7_checkAlignment_waits_then_false true _ _ _ (fun _ _ => rfl)

/- ***** Exit-code distinctness (C8) ***** -/

/-- The failure classes of the spec: insufficient sequences, reversal-tool
failure (readal), the failure of each supported aligner, trimming-tool
failure (trimal), and unsupported tool (generic). -/
def failure_class_codes : List Nat :=
  insufficient_seqs_code ::
    (["readal", "prank", "mafft", "kalign", "muscle", "t_coffee", "m_coffee",
      "dialign_tx", "clustalw", "clustal_omega", "trimal", "generic"].map
      exitCode)

/-- C8 counterexample: the per-class exit codes are not pairwise distinct;
prank and clustal_omega share code 92 (and t_coffee and m_coffee share 90). -/
theorem c8_exit_codes_not_distinct :
    ¬ failure_class_codes.Nodup ∧
    exitCode "prank" = 92 ∧ exitCode "clustal_omega" = 92 := by
  decide

/-- C8 (amended): the failure-class exit codes are pairwise distinct except
that clustal_omega reuses the prank code 92 and m_coffee reuses the t_coffee
code 90. -/
theorem c8_exit_codes_distinct_except :
    (insufficient_seqs_code ::
      (["readal", "prank", "mafft", "kalign", "muscle", "t_coffee",
        "dialign_tx", "clustalw", "trimal", "generic"].map exitCode)).Nodup ∧
    exitCode "clustal_omega" = exitCode "prank" ∧
    exitCode "m_coffee" = exitCode "t_coffee" := by
  decide

/- ***** The run-configuration dictionary ***** -/

/-- A value of the parameters dictionary: string, Boolean, integer or a list
of program names. -/
inductive Value where
  | s (v : String)
  | b (v : Bool)
  | n (v : Nat)
  | l (v : List String)
deriving DecidableEq, Repr

/-- The parameters dictionary, in insertion order. -/
abbrev Params := List (String × Value)

/-- Dictionary read, first match. -/
def getV : Params → String → Option Value
  | [], _ => none
  | (k, v) :: rest, q => if k = q then some v else getV rest q

/-- Dictionary assignment: update in place, append when absent. -/
def setV : Params → String → Value → Params
  | [], q, w => [(q, w)]
  | (k, v) :: rest, q, w =>
    if k = q then (q, w) :: rest else (k, v) :: setV rest q w

/-- Python membership test: key in parameters. -/
def hasK (p : Params) (k : String) : Bool := (getV p k).isSome

/-- Python truthiness of a dictionary value. -/
def truthy : Value → Bool
  | .s v => decide (v ≠ "")
  | .b v => v
  | .n v => decide (v ≠ 0)
  | .l v => decide (v ≠ [])

/-- parameters["residue_datatype"] in ["prot2codon", "prot2nuc"]. -/
def isP2 (v : Option Value) : Bool :=
  match v with
  | some (.s x) => decide (x = "prot2codon") || decide (x = "prot2nuc")
  | _ => false

/- ***** Environment and state of one stage run ***** -/

/-- The environment of one stage run: whether an external command exits with
status zero, whether the post-alignment consistency check of the produced
output succeeds (the tool-written contents are external to the
orchestration), and the parsed contents of the sequence files the stage
itself reads. -/
structure Env where
  exec : String → Bool
  checkOK : String → String → Bool
  fasta : String → FastaFile

/-- A record of one completed helper invocation: the tool, the argument
string, input and output artifacts, the replace flag it was invoked with,
its Boolean return value, and the external commands it launched. -/
structure StepCall where
  tool : String
  args : String
  inF : String
  outF : String
  replacePassed : Bool
  regenerated : Bool
  cmds : List String
deriving DecidableEq, Repr

/-- The observable state of one stage run. -/
structure AState where
  cwd : String
  fs : FS
  params : Params
  log : List String
  trace : List StepCall
deriving DecidableEq, Repr

/-- How a computation of the stage stops early: sys.exit with an integer
status, sys.exit with an error message, or a dictionary KeyError (or similar
runtime error) at the given key. -/
inductive ExitR where
  | code (n : Nat)
  | msg (m : String)
  | keyErr (k : String)
deriving DecidableEq, Repr

/-- The outcome of part of a stage run: a value and the state, or an early
process termination together with the state at that point. -/
inductive Outcome (α : Type) where
  | ok (a : α) (st : AState)
  | exit (e : ExitR) (st : AState)
deriving DecidableEq, Repr

/-- Sequencing: an early termination propagates. -/
def Outcome.bind {α β : Type} (o : Outcome α)
    (f : α → AState → Outcome β) : Outcome β :=
  match o with
  | .ok a st => f a st
  | .exit e st => .exit e st

/-- The final parameters dictionary of a finished run (the stored dictionary
when the run terminated early). -/
def paramsOfD : Outcome Params → Params
  | .ok p _ => p
  | .exit _ st => st.params

/-- The state at the end of the run (also on early termination). -/
def stateOfD : Outcome Params → AState
  | .ok _ st => st
  | .exit _ st => st

/-- The step-invocation trace at the end of the run. -/
def traceOf (o : Outcome Params) : List StepCall := (stateOfD o).trace

/-- The working directory at the end of the run. -/
def cwdOf (o : Outcome Params) : String := (stateOfD o).cwd

/- ***** The artifact-producing helpers ***** -/

/-- The result of one artifact-producing helper: the file system after the
call, the external commands it launched, and its Boolean return value. -/
structure StepOut where
  fs : FS
  cmds : List String
  regenerated : Bool
deriving DecidableEq, Repr

/-- module_alignments.reverseSequences: gate on the destination artifact,
then one readAl reversal command; a launch failure or a non-zero status is
fatal with the readal exit code.  On success the external tool has written
the destination artifact (modelled as a non-empty file). -/
def reverseSequences (env : Env) (binary in_file out_file : String)
    (replace : Bool) (fs : FS) : Except Nat StepOut :=
  if lookForFile fs out_file && !replace then .ok ⟨fs, [], false⟩
  else
    let cmd := binary ++ " -in " ++ in_file ++ " -out " ++ out_file ++ " -reverse"
    if env.exec cmd then .ok ⟨fsWrite fs out_file 1, [cmd], true⟩
    else .error (exitCode "readal")

/-- module_alignments.replaceRareAminoAcids: gate on the destination
artifact, then rewrite the input records applying the substitution table (the
residue transformation is embedded separately as substituteSeq/restoreSeq for
back = False/True) and write the destination file; no external process is
launched, and the written size is abstracted as non-zero. -/
def replaceRareAminoAcids (in_file out_file : String) (replace : Bool)
    (combinations : String) (back : Bool) (fs : FS) : Except Nat StepOut :=
  if lookForFile fs out_file && !replace then .ok ⟨fs, [], false⟩
  else .ok ⟨fsWrite fs out_file 1, [], true⟩

/-- The per-tool command-line construction of perfomAlignment; none for a
tool outside the supported set. -/
def mkAlignCmd (label binary params in_file out_file : String) :
    Option String :=
  if label = "muscle" || label = "kalign" then
    some (binary ++ " " ++ params ++ " -in " ++ in_file ++ " -out " ++ out_file)
  else if label = "clustalw" then
    some (binary ++ " " ++ params ++ " -INFILE=" ++ in_file ++ " -OUTFILE=" ++ out_file)
  else if label = "clustal_omega" then
    some (binary ++ " " ++ params ++ " --in " ++ in_file ++ " --out " ++ out_file)
  else if label = "mafft" then
    some (binary ++ " " ++ params ++ " " ++ in_file ++ " > " ++ out_file)
  else if label = "prank" then
    some (binary ++ " " ++ params ++ " -d=" ++ in_file ++ " -o=" ++ out_file)
  else if label = "dialign_tx" then
    some (binary ++ " " ++ params ++ " " ++ in_file ++ " " ++ out_file)
  else if label = "t_coffee" || label = "m_coffee" then
    some (binary ++ " " ++ in_file ++ " " ++ params ++ " -outfile " ++ out_file)
  else none

/-- module_alignments.perfomAlignment: gate on the destination artifact,
build the tool command (generic exit for an unsupported tool), run it
(tool-specific exit on launch failure or non-zero status), let the tool write
the output (the prank suffix relocation and t_coffee guide-tree cleanup are
abstracted), then the mandatory consistency check, whose failure is fatal
with the same tool exit code. -/
def perfomAlignment (env : Env) (label binary params in_file out_file : String)
    (replace : Bool) (fs : FS) : Except Nat StepOut :=
  if lookForFile fs out_file && !replace then .ok ⟨fs, [], false⟩
  else
    match mkAlignCmd label binary params in_file out_file with
    | none => .error (exitCode "generic")
    | some cmd =>
      if !env.exec cmd then .error (exitCode label)
      else if !env.checkOK in_file out_file then .error (exitCode label)
      else .ok ⟨fsWrite fs out_file 1, [cmd], true⟩

/-- module_alignments.trimmingAlignment: gate on the destination artifact,
then one trimAl command assembled from the optional cds, compare_msa,
force_refer_msa and in_file arguments, in that order. -/
def trimmingAlignment (env : Env) (label binary params out_file : String)
    (replace : Bool)
    (in_file compare_msa force_refer_msa cds : Option String)
    (fs : FS) : Except Nat StepOut :=
  if lookForFile fs out_file && !replace then .ok ⟨fs, [], false⟩
  else
    let c0 := ""
    let c1 := match cds with
      | some f => c0 ++ " -backtrans " ++ f ++ " "
      | none => c0
    let c2 := match compare_msa with
      | some f => c1 ++ " -compareset " ++ f ++ " "
      | none => c1
    let c3 := match force_refer_msa with
      | some f => c2 ++ " -forceselect " ++ f ++ " "
      | none => c2
    let c4 := match in_file with
      | some f => c3 ++ " -in " ++ f ++ " "
      | none => c3
    let cmd := binary ++ " " ++ c4 ++ " -out " ++ out_file ++ " " ++ params
    if env.exec cmd then .ok ⟨fsWrite fs out_file 1, [cmd], true⟩
    else .error (exitCode label)

/-- module_alignments.convertInputFile_Format: gate on the destination
artifact, then one readAl conversion command. -/
def convertInputFile_Format (env : Env)
    (label binary in_file out_file out_format : String)
    (replace : Bool) (fs : FS) : Except Nat StepOut :=
  if lookForFile fs out_file && !replace then .ok ⟨fs, [], false⟩
  else
    let cmd := binary ++ " -in " ++ in_file ++ " -out " ++ out_file ++ " -" ++ out_format
    if env.exec cmd then .ok ⟨fsWrite fs out_file 1, [cmd], true⟩
    else .error (exitCode label)

/- ***** The stage orchestration ***** -/

/-- Run one helper call inside the stage: read the replace entry, run the
helper with it, record the invocation in the trace, apply the file-system
effect, and, when the call site uses the returned Boolean (promote), set the
replace entry to True after a True return, as the source does with
  if helper(...): parameters["replace"] = True
call sites whose return value the source discards use promote = false. -/
def callStep (st : AState) (tool args inF outF : String) (promote : Bool)
    (step : Bool → FS → Except Nat StepOut) : Outcome Bool :=
  match getV st.params "replace" with
  | none => .exit (.keyErr "replace") st
  | some rv =>
    let r := truthy rv
    match step r st.fs with
    | .error c => .exit (.code c) st
    | .ok so =>
      let st2 : AState :=
        { st with fs := so.fs,
                  trace := st.trace ++ [⟨tool, args, inF, outF, r, so.regenerated, so.cmds⟩] }
      if promote && so.regenerated then
        .ok so.regenerated { st2 with params := setV st2.params "replace" (.b true) }
      else .ok so.regenerated st2

/-- The both_direction normalization of lines 117-120: a string value is
turned into the Boolean it spells (case-insensitively). -/
def normBothDirection (st : AState) : AState :=
  match getV st.params "both_direction" with
  | some (.s v) =>
    { st with
      params := setV st.params "both_direction" (.b (v.toLower == "true")) }
  | _ => st

/-- Lines 101-139 of module_alignments.alignment: the configuration checks
(ALIGNMENT step defined, every selected program registered, readAl
registered), the both_direction string-to-Boolean normalization, the
cds / residue_datatype consistency checks, and the residue_datatype default
(the source reads parameters["residue_datatype"] before that default is
assigned, so a configuration with neither cds nor residue_datatype stops at
the read).  Error messages are abbreviated. -/
def alignment_checks (st : AState) : Outcome Unit :=
  match getV st.params "alignment" with
  | none => .exit (.msg "ERROR: no definition for the ALIGNMENT step") st
  | some (.l progs) =>
    if !progs.all (fun p => hasK st.params p) then
      .exit (.msg "ERROR: selected program is not available") st
    else if !hasK st.params "readal" then
      .exit (.msg "ERROR: readAl is not available") st
    else
      let st2 := normBothDirection st
      if !hasK st2.params "both_direction" then
        .exit (.keyErr "both_direction") st2
      else if hasK st2.params "cds"
          && !isP2 (getV st2.params "residue_datatype") then
        .exit (.msg "ERROR: an additional CDS file needs residue_datatype prot2codon or prot2nuc") st2
      else if !hasK st2.params "cds" then
        match getV st2.params "residue_datatype" with
        | none => .exit (.keyErr "residue_datatype") st2
        | some w =>
          if isP2 (some w) then
            .exit (.msg "ERROR: residue_datatype prot2codon or prot2nuc needs an input CDS file") st2
          else if !hasK st2.params "residue_datatype" then
            .ok () { st2 with params := setV st2.params "residue_datatype" (.s "") }
          else .ok () st2
      else
        if !hasK st2.params "residue_datatype" then
          .ok () { st2 with params := setV st2.params "residue_datatype" (.s "") }
        else .ok () st2
  | some _ => .exit (.keyErr "alignment") st

/-- Decimal digit accumulation for the int() model. -/
def digitsToNatAux (acc : Nat) : List Char → Option Nat
  | [] => some acc
  | c :: rest =>
    if c.isDigit then digitsToNatAux (acc * 10 + (c.toNat - 48)) rest
    else none

/-- Python int() on a non-negative decimal string; none models the
ValueError on anything else. -/
def pyInt (s : String) : Option Nat :=
  match s.data with
  | [] => none
  | l => digitsToNatAux 0 l

/-- int(parameters["min_seqs"]) when present, int(min_seqs_analysis)
otherwise; none models the int() ValueError. -/
def minSeqsOf (p : Params) : Option Nat :=
  match getV p "min_seqs" with
  | none => pyInt min_seqs_analysis
  | some (.s v) => pyInt v
  | some (.n v) => some v
  | some _ => none

/-- Lines 141-153: count the input records and detect rare residues, resolve
the minimum-sequence threshold, and stop with the dedicated status 80 after
an informational log line when there are not enough sequences. -/
def alignment_countGate (env : Env) (st : AState) : Outcome (Nat × Bool × Bool) :=
  match getV st.params "in_file" with
  | some (.s inf) =>
    let c := check_count_sequences (env.fasta inf)
    match minSeqsOf st.params with
    | none => .exit (.keyErr "min_seqs") st
    | some m =>
      if c.1 < m then
        let infoLine := "### INFO: It is necessary, at least, " ++ toString m
          ++ " sequences to reconstruct an alignment"
        .exit (.code insufficient_seqs_code) { st with log := st.log ++ [infoLine] }
      else .ok c st
  | _ => .exit (.keyErr "in_file") st

/-- Lines 156-189: reverse the raw input when both directions are requested,
then substitute rare amino-acids (on the raw and, when present, the reversed
input) when selenocysteine or pyrrolysine was detected; every regeneration
promotes the replace entry. -/
def alignment_preprocess (env : Env) (st : AState)
    (oFile inFile readalBin : String)
    (bothDir selenocys pyrrolys : Bool) : Outcome Unit :=
  Outcome.bind
    (if bothDir then
      Outcome.bind
        (callStep st "readal" "" inFile (oFile ++ ".seqs.reverse") true
          (fun r fs => reverseSequences env readalBin inFile
            (oFile ++ ".seqs.reverse") r fs))
        (fun _ st2 => .ok () st2)
    else .ok () st)
    (fun _ st2 =>
      if selenocys || pyrrolys then
        match getV st2.params "in_letter" with
        | some (.s il) =>
          Outcome.bind
            (callStep st2 "replace_rare" il inFile (oFile ++ ".seqs.no_rare_aa") true
              (fun r fs => replaceRareAminoAcids inFile
                (oFile ++ ".seqs.no_rare_aa") r il false fs))
            (fun _ st3 =>
              if bothDir then
                Outcome.bind
                  (callStep st3 "replace_rare" il (oFile ++ ".seqs.reverse")
                    (oFile ++ ".seqs.no_rare_aa.reverse") true
                    (fun r fs => replaceRareAminoAcids (oFile ++ ".seqs.reverse")
                      (oFile ++ ".seqs.no_rare_aa.reverse") r il false fs))
                  (fun _ st4 => .ok () st4)
              else .ok () st3)
        | _ => .exit (.keyErr "in_letter") st2
      else .ok () st2)

/-- set.add on generated_alignments, as an insertion-ordered list without
duplicates. -/
def addGen (gen : List String) (x : String) : List String :=
  if x ∈ gen then gen else gen ++ [x]

/-- Lines 212-258: one aligner in one direction: choose the input depending
on rare-residue presence and direction, align, restore rare residues into the
aligned output when needed, re-reverse a reverse-direction alignment, and add
the resulting artifact to the generated set. -/
def alignment_oneDirec (env : Env) (st : AState)
    (oFile origInFile readalBin : String) (rare : Bool)
    (prog binary progParams ext direc : String)
    (gen : List String) : Outcome (List String) :=
  let in_file :=
    if direc = "forward" then
      (if rare then oFile ++ ".seqs.no_rare_aa" else origInFile)
    else
      (if rare then oFile ++ ".seqs.no_rare_aa.reverse"
       else oFile ++ ".seqs.reverse")
  let out_file := oFile ++ ".alg." ++ (if rare then "no_rare_aa." else "")
    ++ direc ++ "." ++ ext
  Outcome.bind
    (callStep st prog progParams in_file out_file true
      (fun r fs => perfomAlignment env prog binary progParams in_file out_file r fs))
    (fun _ st2 =>
      Outcome.bind
        (if rare then
          let alt := oFile ++ ".alg." ++ direc ++ "." ++ ext
          match getV st2.params "in_letter" with
          | some (.s il) =>
            Outcome.bind
              (callStep st2 "replace_rare" il out_file alt true
                (fun r fs => replaceRareAminoAcids out_file alt r il true fs))
              (fun _ st3 => .ok alt st3)
          | _ => .exit (.keyErr "in_letter") st2
        else .ok out_file st2)
        (fun outF st3 =>
          if direc = "reverse" then
            let inF2 := oFile ++ ".alg.reverse." ++ ext
            let outF2 := oFile ++ ".alg.reverse.forw." ++ ext
            Outcome.bind
              (callStep st3 "readal" "" inF2 outF2 true
                (fun r fs => reverseSequences env readalBin inF2 outF2 r fs))
              (fun _ st4 => .ok (addGen gen outF2) st4)
          else .ok (addGen gen outF) st3))

/-- The inner loop of lines 212-258 over the directions list. -/
def alignment_direcLoop (env : Env) (oFile origInFile readalBin : String)
    (rare : Bool) (prog binary progParams ext : String) :
    List String → AState → List String → Outcome (List String)
  | [], st, gen => .ok gen st
  | d :: rest, st, gen =>
    Outcome.bind
      (alignment_oneDirec env st oFile origInFile readalBin rare
        prog binary progParams ext d gen)
      (fun gen2 st2 =>
        alignment_direcLoop env oFile origInFile readalBin rare
          prog binary progParams ext rest st2 gen2)

/-- The outer loop of lines 199-258 over the selected aligners: resolve each
binary, its parameter string and its output extension, then run every
direction. -/
def alignment_progLoop (env : Env) (oFile origInFile readalBin : String)
    (rare : Bool) (direcs : List String) :
    List String → AState → List String → Outcome (List String)
  | [], st, gen => .ok gen st
  | prog :: rest, st, gen =>
    match getV st.params prog with
    | some (.s binary) =>
      let progParams := match getV st.params (prog ++ "_params") with
        | some (.s v) => v
        | _ => ""
      let ext := match file_extension.lookup prog with
        | some e => e
        | none => prog.take 2 ++ prog.takeRight 1
      Outcome.bind
        (alignment_direcLoop env oFile origInFile readalBin rare
          prog binary progParams ext direcs st gen)
        (fun gen2 st2 =>
          alignment_progLoop env oFile origInFile readalBin rare direcs
            rest st2 gen2)
    | _ => .exit (.keyErr prog) st

/-- Lines 260-289: when more than one alignment artifact exists and a
consensus tool is configured, run the consensus tool over the whole generated
set plus the original input, producing the metalig artifact, and convert it
to phylip; otherwise pop one artifact from the set and convert it to phylip.
Both conversion return values are discarded by the source.  Returns the
out_file used by the downstream steps. -/
def alignment_consensus (env : Env) (st : AState)
    (oFile readalBin : String) (gen : List String) : Outcome String :=
  if decide (gen.length > 1) && hasK st.params "consensus" then
    match getV st.params "consensus" with
    | some (.l (prog :: _)) =>
      if !hasK st.params prog then
        .exit (.msg "ERROR: selected consensus program is not available") st
      else
        match getV st.params prog with
        | some (.s binary) =>
          let p0 := match getV st.params (prog ++ "_params") with
            | some (.s v) => v
            | _ => ""
          let aParams := p0 ++ " -aln " ++ String.intercalate " " gen
          let out_file := oFile ++ ".alg.metalig"
          match getV st.params "in_file" with
          | some (.s inf) =>
            Outcome.bind
              (callStep st prog aParams inf out_file true
                (fun r fs => perfomAlignment env prog binary aParams inf out_file r fs))
              (fun _ st2 =>
                Outcome.bind
                  (callStep st2 "readal" "phylip" out_file out_file false
                    (fun r fs => convertInputFile_Format env "readal" readalBin
                      out_file out_file "phylip" r fs))
                  (fun _ st3 => .ok out_file st3))
          | _ => .exit (.keyErr "in_file") st
        | _ => .exit (.keyErr prog) st
    | _ => .exit (.keyErr "consensus") st
  else
    match gen with
    | [] => .exit (.keyErr "generated_alignments") st
    | out_file :: _ =>
      Outcome.bind
        (callStep st "readal" "phylip" out_file out_file false
          (fun r fs => convertInputFile_Format env "readal" readalBin
            out_file out_file "phylip" r fs))
        (fun _ st2 => .ok out_file st2)

/-- Lines 291-304: resolve the trimming program and its binary when
back-translation or trimming applies; none when neither does. -/
def alignment_trimProg (st : AState) : Outcome (Option (String × String)) :=
  if isP2 (getV st.params "residue_datatype") || hasK st.params "trimming" then
    match getV st.params "trimming" with
    | some (.l (prog :: _)) =>
      if !hasK st.params prog then
        .exit (.msg "ERROR: selected trimming program is not available") st
      else
        match getV st.params prog with
        | some (.s binary) => .ok (some (prog, binary)) st
        | _ => .exit (.keyErr prog) st
    | _ => .exit (.keyErr "trimming") st
  else .ok none st

/-- Lines 306-319: back-translate the untrimmed alignment in the prot2codon /
prot2nuc modes and convert it to phylip; the trimming return value promotes
the replace entry, the conversion return value is discarded. -/
def alignment_backtrans (env : Env) (st : AState) (readalBin : String)
    (progbin : Option (String × String)) (out_file : String) : Outcome Unit :=
  if isP2 (getV st.params "residue_datatype") then
    match progbin with
    | some (prog, binary) =>
      let aParams := match getV st.params (prog ++ "_cds") with
        | some (.s v) => v
        | _ => ""
      match getV st.params "cds" with
      | some (.s cds) =>
        Outcome.bind
          (callStep st prog aParams out_file (out_file ++ "_cds") true
            (fun r fs => trimmingAlignment env prog binary aParams
              (out_file ++ "_cds") r (some out_file) none none (some cds) fs))
          (fun _ st2 =>
            Outcome.bind
              (callStep st2 "readal" "phylip" (out_file ++ "_cds")
                (out_file ++ "_cds") false
                (fun r fs => convertInputFile_Format env "readal" readalBin
                  (out_file ++ "_cds") (out_file ++ "_cds") "phylip" r fs))
              (fun _ st3 => .ok () st3))
      | _ => .exit (.keyErr "cds") st
    | none => .exit (.keyErr "trimming") st
  else .ok () st

/-- Lines 321-372: the trimming branch.  The trimming program name is
re-resolved from the configuration (the binary stays the one resolved at
lines 297-304); for more than one generated alignment the paths index file is
written and trimAl is run in compare mode, otherwise over the single
alignment; the prot2codon / prot2nuc modes add a cds trimming run.  All four
trimming return values of this branch are discarded by the source.  Returns
the final out_file. -/
def alignment_trimming (env : Env) (st : AState) (oFile : String)
    (progbin : Option (String × String)) (gen : List String)
    (out_file : String) : Outcome String :=
  if hasK st.params "trimming" then
    match getV st.params "trimming" with
    | some (.l (prog :: _)) =>
      if !hasK st.params prog then
        .exit (.msg "ERROR: selected trimming program is not available") st
      else
        match progbin with
        | some (_, binary) =>
          let params0 := match getV st.params (prog ++ "_params") with
            | some (.s v) => v
            | _ => ""
          let clean_file := oFile ++ ".alg.clean"
          let rd := isP2 (getV st.params "residue_datatype")
          if decide (gen.length > 1) then
            let params1 := match getV st.params (prog ++ "_compare") with
              | some (.s v) => params0 ++ " " ++ v
              | _ => params0
            let path_file := oFile ++ ".alg.paths"
            let st1 := { st with fs := fsWrite st.fs path_file 1 }
            Outcome.bind
              (callStep st1 prog params1 "" clean_file false
                (fun r fs => trimmingAlignment env prog binary params1
                  clean_file r none (some path_file) (some out_file) none fs))
              (fun _ st2 =>
                if rd then
                  let params2 := match getV st2.params (prog ++ "_cds") with
                    | some (.s v) => params1 ++ " " ++ v
                    | _ => params1
                  match getV st2.params "cds" with
                  | some (.s cds) =>
                    Outcome.bind
                      (callStep st2 prog params2 "" (clean_file ++ "_cds") false
                        (fun r fs => trimmingAlignment env prog binary params2
                          (clean_file ++ "_cds") r none (some path_file)
                          (some out_file) (some cds) fs))
                      (fun _ st3 => .ok (clean_file ++ "_cds") st3)
                  | _ => .exit (.keyErr "cds") st2
                else .ok clean_file st2)
          else
            Outcome.bind
              (callStep st prog params0 out_file clean_file false
                (fun r fs => trimmingAlignment env prog binary params0
                  clean_file r (some out_file) none none none fs))
              (fun _ st2 =>
                if rd then
                  let params2 := match getV st2.params (prog ++ "_cds") with
                    | some (.s v) => params0 ++ " " ++ v
                    | _ => params0
                  match getV st2.params "cds" with
                  | some (.s cds) =>
                    Outcome.bind
                      (callStep st2 prog params2 out_file (clean_file ++ "_cds") false
                        (fun r fs => trimmingAlignment env prog binary params2
                          (clean_file ++ "_cds") r (some out_file) none none
                          (some cds) fs))
                      (fun _ st3 => .ok (clean_file ++ "_cds") st3)
                  | _ => .exit (.keyErr "cds") st2
                else .ok clean_file st2)
        | none => .exit (.keyErr "trimming") st
    | _ => .exit (.keyErr "trimming") st
  else .ok out_file st

/-- Lines 397-405: rebind in_file to the final artifact, restore the saved
working directory and return the parameters dictionary. -/
def alignment_finish (st : AState) (savedCwd out_file : String) : Outcome Params :=
  let p2 := setV st.params "in_file" (.s out_file)
  .ok p2 { st with params := p2, cwd := savedCwd }

/-- Everything after the aligner loop: consensus or single-artifact pick,
back-translation, trimming, and the final rebinding and directory
restoration.  The set.pop of line 285 removes the popped artifact, so the
trimming branch (line 336) sees the set without it; the consensus branch
does not pop, so there the set is unchanged (genT below). -/
def alignment_post (env : Env) (st : AState)
    (oFile readalBin savedCwd : String) (gen : List String) : Outcome Params :=
  Outcome.bind (alignment_consensus env st oFile readalBin gen)
    (fun outF st2 =>
      let genT := if decide (gen.length > 1) && hasK st.params "consensus"
        then gen else gen.tail
      Outcome.bind (alignment_trimProg st2)
        (fun pb st3 =>
          Outcome.bind (alignment_backtrans env st3 readalBin pb outF)
            (fun _ st4 =>
              Outcome.bind (alignment_trimming env st4 oFile pb genT outF)
                (fun outF2 st5 => alignment_finish st5 savedCwd outF2))))

/-- module_alignments.alignment: the whole stage.  The working directory is
changed to the output directory on entry and restored on the single return
path; every early termination leaves it at the output directory (the source
has no finally-style restoration).  Log-file management is abstracted except
for the informational line the insufficient-sequences gate writes. -/
def alignment (env : Env) (st0 : AState) : Outcome Params :=
  match getV st0.params "out_directory", getV st0.params "prefix" with
  | some (.s outDir), some (.s pfx) =>
    let oFile := outDir ++ "/" ++ pfx
    let savedCwd := st0.cwd
    Outcome.bind (alignment_checks { st0 with cwd := outDir })
      (fun _ st =>
        match getV st.params "readal", getV st.params "in_file" with
        | some (.s readalBin), some (.s inFile) =>
          Outcome.bind (alignment_countGate env st)
            (fun c st2 =>
              let selenocys := c.2.1
              let pyrrolys := c.2.2
              let rare := selenocys || pyrrolys
              let bothDir := match getV st2.params "both_direction" with
                | some w => truthy w
                | none => false
              Outcome.bind
                (alignment_preprocess env st2 oFile inFile readalBin
                  bothDir selenocys pyrrolys)
                (fun _ st3 =>
                  let direcs := "forward" :: (if bothDir then ["reverse"] else [])
                  let progs := match getV st3.params "alignment" with
                    | some (.l ps) => ps
                    | _ => []
                  Outcome.bind
                    (alignment_progLoop env oFile inFile readalBin rare direcs
                      progs st3 [])
                    (fun gen st4 =>
                      alignment_post env st4 oFile readalBin savedCwd gen)))
        | _, _ => .exit (.keyErr "readal") st)
  | _, _ => .exit (.keyErr "out_directory") st0

/- ***** C2: the existence / staleness gate of every artifact step ***** -/

lemma fsGet_fsWrite_self (fs : FS) (f : String) (n : Nat) :
    fsGet (fsWrite fs f n) f = some n := by
  induction fs with
  | nil => simp [fsWrite, fsGet]
  | cons p rest ih =>
    rcases p with ⟨q, m⟩
    by_cases hq : q = f
    · simp [fsWrite, hq, fsGet]
    · simp [fsWrite, hq, fsGet, ih]

lemma lookForFile_fsWrite (fs : FS) (f : String) :
    lookForFile (fsWrite fs f 1) f = true := by
  rw [lookForFile, fsGet_fsWrite_self]
  rfl

/-- C2: for each of the five artifact-producing helpers, when the destination
artifact exists with non-zero size and the staleness flag is false, the
helper returns False, leaves the file system unchanged and launches nothing;
otherwise (the artifact is absent or the flag is true), with the external
tool succeeding and the consistency check passing, it launches its command,
the destination artifact is written, and it returns True. -/
theorem c2_gate_skip_or_regenerate (env : Env) (fs : FS)
    (label binary aParams in_file out_file fmt comb : String) (r : Bool)
    (inf cmp frc cds : Option String)
    (henv : ∀ c, env.exec c = true)
    (hchk : ∀ a b, env.checkOK a b = true)
    (hsup : (mkAlignCmd label binary aParams in_file out_file).isSome) :
    ((lookForFile fs out_file && !r) = true →
      reverseSequences env binary in_file out_file r fs = .ok ⟨fs, [], false⟩ ∧
      replaceRareAminoAcids in_file out_file r comb false fs = .ok ⟨fs, [], false⟩ ∧
      perfomAlignment env label binary aParams in_file out_file r fs = .ok ⟨fs, [], false⟩ ∧
      trimmingAlignment env label binary aParams out_file r inf cmp frc cds fs = .ok ⟨fs, [], false⟩ ∧
      convertInputFile_Format env label binary in_file out_file fmt r fs = .ok ⟨fs, [], false⟩) ∧
    ((lookForFile fs out_file && !r) = false →
      lookForFile (fsWrite fs out_file 1) out_file = true ∧
      (∃ cmd, reverseSequences env binary in_file out_file r fs
        = .ok ⟨fsWrite fs out_file 1, [cmd], true⟩) ∧
      replaceRareAminoAcids in_file out_file r comb false fs
        = .ok ⟨fsWrite fs out_file 1, [], true⟩ ∧
      (∃ cmd, perfomAlignment env label binary aParams in_file out_file r fs
        = .ok ⟨fsWrite fs out_file 1, [cmd], true⟩) ∧
      (∃ cmd, trimmingAlignment env label binary aParams out_file r inf cmp frc cds fs
        = .ok ⟨fsWrite fs out_file 1, [cmd], true⟩) ∧
      (∃ cmd, convertInputFile_Format env label binary in_file out_file fmt r fs
        = .ok ⟨fsWrite fs out_file 1, [cmd], true⟩)) := by
  constructor
  · intro hgate
    refine ⟨?_, ?_, ?_, ?_, ?_⟩
    · rw [reverseSequences, if_pos hgate]
    · rw [replaceRareAminoAcids, if_pos hgate]
    · rw [perfomAlignment, if_pos hgate]
    · rw [trimmingAlignment, if_pos hgate]
    · rw [convertInputFile_Format, if_pos hgate]
  · intro hgate
    have hgate2 : ¬ ((lookForFile fs out_file && !r) = true) := by
      rw [hgate]; exact Bool.false_ne_true
    refine ⟨lookForFile_fsWrite fs out_file, ?_, ?_, ?_, ?_, ?_⟩
    · exact ⟨_, by rw [reverseSequences, if_neg hgate2, if_pos (henv _)]⟩
    · rw [replaceRareAminoAcids, if_neg hgate2]
    · rcases Option.isSome_iff_exists.mp hsup with ⟨cmd, hc⟩
      refine ⟨cmd, ?_⟩
      rw [perfomAlignment, if_neg hgate2, hc]
      simp [henv, hchk]
    · exact ⟨_, by rw [trimmingAlignment, if_neg hgate2, if_pos (henv _)]⟩
    · exact ⟨_, by rw [convertInputFile_Format, if_neg hgate2, if_pos (henv _)]⟩

/-- C2 witness: both legs at concrete inputs: a present artifact with the
flag down (skip), and an absent artifact (regenerate). -/
theorem c2_gate_witness :
    (reverseSequences ⟨fun _ => true, fun _ _ => true, fun _ => []⟩ "readal"
      "in.fa" "out.fa" false [("out.fa", 3)] = .ok ⟨[("out.fa", 3)], [], false⟩) ∧
    (∃ cmd, perfomAlignment ⟨fun _ => true, fun _ _ => true, fun _ => []⟩
      "muscle" "muscle" "" "in.fa" "new.fa" false []
      = .ok ⟨fsWrite [] "new.fa" 1, [cmd], true⟩) := by
  constructor
  · exact ((c2_gate_skip_or_regenerate ⟨fun _ => true, fun _ _ => true, fun _ => []⟩
      [("out.fa", 3)] "muscle" "readal" "" "in.fa" "out.fa" "phylip" "U:B" false
      none none none none (fun _ => rfl) (fun _ _ => rfl) (by decide)).1 (by decide)).1
  · exact (((c2_gate_skip_or_regenerate ⟨fun _ => true, fun _ _ => true, fun _ => []⟩
      [] "muscle" "muscle" "" "in.fa" "new.fa" "phylip" "U:B" false
      none none none none (fun _ => rfl) (fun _ _ => rfl) (by decide)).2 (by decide)).2).2.2.1

/- ***** C4: the minimum-sequences gate ***** -/

lemma check_count_sequences_fst (recs : FastaFile) :
    (check_count_sequences recs).1 = recs.length := rfl

lemma alignment_checks_ok (st : AState)
    (readalBin rdv : String) (progs : List String) (bd : Bool)
    (halign : getV st.params "alignment" = some (.l progs))
    (hprogs : progs.all (fun p => hasK st.params p) = true)
    (hreadal : getV st.params "readal" = some (.s readalBin))
    (hbd : getV st.params "both_direction" = some (.b bd))
    (hcds : hasK st.params "cds" = false)
    (hrd : getV st.params "residue_datatype" = some (.s rdv))
    (hrdv : isP2 (some (.s rdv)) = false) :
    alignment_checks st = .ok () st := by
  rw [alignment_checks, halign]
  have hnb : normBothDirection st = st := by
    rw [normBothDirection.eq_def, hbd]
  simp only [hprogs, Bool.not_true, Bool.false_eq_true, if_false, hnb]
  rw [if_neg (by rw [hasK, hreadal]; simp)]
  rw [if_neg (by rw [hasK, hbd]; simp)]
  rw [if_neg (by rw [hcds]; simp)]
  rw [if_pos (by rw [hcds]; simp), hrd]
  simp only [hrdv, Bool.false_eq_true, if_false]
  rw [if_neg (by rw [hasK, hrd]; simp)]

/-- C4: a run whose input collection has fewer records than the configured
minimum (default 3) terminates with the dedicated status 80 after logging an
informational line, with no step of the stage invoked (the trace is
untouched, so no aligner, reversal, substitution or trimming command is
launched). -/
theorem c4_insufficient_sequences (env : Env) (st0 : AState)
    (outDir pfx readalBin inFile rdv : String) (progs : List String)
    (bd : Bool) (m : Nat)
    (hout : getV st0.params "out_directory" = some (.s outDir))
    (hpfx : getV st0.params "prefix" = some (.s pfx))
    (halign : getV st0.params "alignment" = some (.l progs))
    (hprogs : progs.all (fun p => hasK st0.params p) = true)
    (hreadal : getV st0.params "readal" = some (.s readalBin))
    (hbd : getV st0.params "both_direction" = some (.b bd))
    (hcds : hasK st0.params "cds" = false)
    (hrd : getV st0.params "residue_datatype" = some (.s rdv))
    (hrdv : isP2 (some (.s rdv)) = false)
    (hin : getV st0.params "in_file" = some (.s inFile))
    (hm : minSeqsOf st0.params = some m)
    (hcount : (env.fasta inFile).length < m) :
    ∃ st1, alignment env st0 = .exit (.code insufficient_seqs_code) st1 ∧
      st1.trace = st0.trace ∧
      ("### INFO: It is necessary, at least, " ++ toString m
        ++ " sequences to reconstruct an alignment") ∈ st1.log := by
  rw [alignment, hout, hpfx]
  simp only []
  rw [alignment_checks_ok { st0 with cwd := outDir } readalBin rdv progs bd
    halign hprogs hreadal hbd hcds hrd hrdv]
  rw [show ∀ f : Unit → AState → Outcome Params,
      Outcome.bind (.ok () { st0 with cwd := outDir }) f
        = f () { st0 with cwd := outDir } from fun _ => rfl]
  rw [hreadal, hin]
  simp only []
  rw [alignment_countGate, hin]
  simp only []
  rw [hm]
  simp only []
  rw [if_pos (by rw [check_count_sequences_fst]; exact hcount)]
  refine ⟨_, rfl, rfl, ?_⟩
  simp

/-- A configuration with only two input records, used as the C4 witness and
as the C9 failing run. -/
def insufParams : Params :=
  [("out_directory", .s "/out"), ("prefix", .s "p"), ("replace", .b false),
   ("in_file", .s "/in/two.fa"), ("alignment", .l ["muscle"]),
   ("muscle", .s "/bin/muscle"), ("readal", .s "/bin/readal"),
   ("both_direction", .b true), ("residue_datatype", .s "")]

/-- Environment for the two-record run: two sequences, all tools succeed. -/
def insufEnv : Env :=
  ⟨fun _ => true, fun _ _ => true, fun _ => [("s1", ['M']), ("s2", ['M'])]⟩

/-- Starting state of the two-record run. -/
def insufState : AState := ⟨"/home", [], insufParams, [], []⟩

/-- C4 witness: the concrete two-record run stops with status 80, an empty
trace and the informational log line. -/
theorem c4_insufficient_sequences_witness :
    ∃ st1, alignment insufEnv insufState
        = .exit (.code insufficient_seqs_code) st1 ∧
      st1.trace = insufState.trace ∧
      ("### INFO: It is necessary, at least, " ++ toString 3
        ++ " sequences to reconstruct an alignment") ∈ st1.log :=
  c4_insufficient_sequences insufEnv insufState "/out" "p" "/bin/readal"
    "/in/two.fa" "" ["muscle"] true 3 rfl rfl rfl (by decide) rfl rfl
    (by decide) rfl (by decide) rfl (by decide) (by decide)

/- ***** C6 and C10: consensus fan-in / single-artifact handoff ***** -/

lemma getV_setV_self (p : Params) (k : String) (v : Value) :
    getV (setV p k v) k = some v := by
  induction p with
  | nil => simp [setV, getV]
  | cons e rest ih =>
    rcases e with ⟨k0, v0⟩
    by_cases hk : k0 = k
    · simp [setV, hk, getV]
    · simp [setV, hk, getV, ih]

lemma getV_setV_other (p : Params) (k q : String) (v : Value) (hq : k ≠ q) :
    getV (setV p k v) q = getV p q := by
  induction p with
  | nil => simp [setV, getV, hq]
  | cons e rest ih =>
    rcases e with ⟨k0, v0⟩
    by_cases hk : k0 = k
    · subst hk
      simp [setV, getV, hq]
    · simp [setV, hk, getV, ih]

/-- C6: after the aligner runs, when more than one alignment artifact was
generated and a consensus tool is configured, the consensus tool is invoked
once, with the whole generated set joined into its -aln argument and the
original unaligned input as its input file, producing the metalig artifact,
which is then converted to phylip; with exactly one generated artifact the
consensus step is skipped entirely and that sole artifact is converted to
phylip directly. -/
theorem c6_consensus_fanin (env : Env) (st : AState)
    (oFile readalBin prog binary p0 inf cmd : String)
    (gen rest : List String) (rv : Value)
    (henv : ∀ c, env.exec c = true)
    (hchk : ∀ a b, env.checkOK a b = true)
    (hrepl : getV st.params "replace" = some rv)
    (hcons : getV st.params "consensus" = some (.l (prog :: rest)))
    (hprog : getV st.params prog = some (.s binary))
    (hp0 : getV st.params (prog ++ "_params") = some (.s p0))
    (hin : getV st.params "in_file" = some (.s inf))
    (hcmd : mkAlignCmd prog binary
      (p0 ++ " -aln " ++ String.intercalate " " gen) inf
      (oFile ++ ".alg.metalig") = some cmd)
    (hnew : lookForFile st.fs (oFile ++ ".alg.metalig") = false) :
    (gen.length > 1 →
      ∃ st', alignment_consensus env st oFile readalBin gen
          = .ok (oFile ++ ".alg.metalig") st' ∧
        st'.trace = st.trace ++
          [⟨prog, p0 ++ " -aln " ++ String.intercalate " " gen, inf,
            oFile ++ ".alg.metalig", truthy rv, true, [cmd]⟩,
           ⟨"readal", "phylip", oFile ++ ".alg.metalig",
            oFile ++ ".alg.metalig", true, true,
            [readalBin ++ " -in " ++ (oFile ++ ".alg.metalig") ++ " -out "
              ++ (oFile ++ ".alg.metalig") ++ " -" ++ "phylip"]⟩]) ∧
    (∀ x, gen = [x] →
      ∃ st' e, alignment_consensus env st oFile readalBin gen = .ok x st' ∧
        st'.trace = st.trace ++ [e] ∧ e.tool = "readal" ∧ e.args = "phylip" ∧
        e.inF = x ∧ e.outF = x) := by
  have e1def : StepCall := ⟨prog, p0 ++ " -aln " ++ String.intercalate " " gen,
    inf, oFile ++ ".alg.metalig", truthy rv, true, [cmd]⟩
  constructor
  · intro hlen
    have hres : alignment_consensus env st oFile readalBin gen
        = Outcome.ok (oFile ++ ".alg.metalig")
          ⟨st.cwd, fsWrite (fsWrite st.fs (oFile ++ ".alg.metalig") 1)
              (oFile ++ ".alg.metalig") 1,
            setV st.params "replace" (.b true), st.log,
            (st.trace ++ [⟨prog, p0 ++ " -aln " ++ String.intercalate " " gen,
              inf, oFile ++ ".alg.metalig", truthy rv, true, [cmd]⟩])
              ++ [⟨"readal", "phylip", oFile ++ ".alg.metalig",
                oFile ++ ".alg.metalig", true, true,
                [readalBin ++ " -in " ++ (oFile ++ ".alg.metalig") ++ " -out "
                  ++ (oFile ++ ".alg.metalig") ++ " -" ++ "phylip"]⟩]⟩ := by
      rw [alignment_consensus.eq_def,
        if_pos (by rw [hasK, hcons]; simp [hlen] : (decide (gen.length > 1)
          && hasK st.params "consensus") = true)]
      rw [hcons]
      simp only []
      rw [if_neg (by rw [hasK, hprog]; simp), hprog]
      simp only []
      rw [hp0, hin]
      simp only []
      rw [callStep, hrepl]
      simp only []
      rw [perfomAlignment, if_neg (by rw [hnew]; simp), hcmd]
      simp only [henv, hchk, Bool.not_true, Bool.false_eq_true, if_false]
      rw [if_pos (by simp : (true && true) = true)]
      rw [show ∀ (b : Bool) (st2 : AState) (f : Bool → AState → Outcome String),
        Outcome.bind (Outcome.ok b st2) f = f b st2 from fun _ _ _ => rfl]
      rw [callStep, getV_setV_self]
      simp only [truthy]
      rw [convertInputFile_Format]
      rw [if_neg (by simp)]
      rw [if_pos (by rw [henv])]
      rfl
    refine ⟨_, hres, ?_⟩
    simp
  · intro x hx
    subst hx
    have hc : ¬ ((decide (([x] : List String).length > 1)
        && hasK st.params "consensus") = true) := by simp
    by_cases hg : (lookForFile st.fs x && !truthy rv) = true
    · have hres : alignment_consensus env st oFile readalBin [x]
          = Outcome.ok x ⟨st.cwd, st.fs, st.params, st.log,
            st.trace ++ [⟨"readal", "phylip", x, x, truthy rv, false, []⟩]⟩ := by
        rw [alignment_consensus.eq_def, if_neg hc]
        simp only []
        rw [callStep, hrepl]
        simp only []
        rw [convertInputFile_Format, if_pos hg]
        rfl
      refine ⟨_, ⟨"readal", "phylip", x, x, truthy rv, false, []⟩,
        hres, ?_, rfl, rfl, rfl, rfl⟩
      rfl
    · have hres : alignment_consensus env st oFile readalBin [x]
          = Outcome.ok x ⟨st.cwd, fsWrite st.fs x 1, st.params, st.log,
            st.trace ++ [⟨"readal", "phylip", x, x, truthy rv, true,
              [readalBin ++ " -in " ++ x ++ " -out " ++ x ++ " -" ++ "phylip"]⟩]⟩ := by
        rw [alignment_consensus.eq_def, if_neg hc]
        simp only []
        rw [callStep, hrepl]
        simp only []
        rw [convertInputFile_Format, if_neg hg, if_pos (by rw [henv])]
        rfl
      refine ⟨_, ⟨"readal", "phylip", x, x, truthy rv, true,
        [readalBin ++ " -in " ++ x ++ " -out " ++ x ++ " -" ++ "phylip"]⟩,
        hres, ?_, rfl, rfl, rfl, rfl⟩
      rfl

/-- An environment where every external command succeeds, every consistency
check passes and every sequence file is empty. -/
def allOKEnv : Env := ⟨fun _ => true, fun _ _ => true, fun _ => []⟩

/-- A configuration with a consensus tool, used by the C6 witness. -/
def c6wState : AState :=
  ⟨"/out", [],
   [("replace", .b false), ("consensus", .l ["t_coffee"]),
    ("t_coffee", .s "/bin/tcof"), ("t_coffee_params", .s "-n"),
    ("in_file", .s "/in/seqs.fa")], [], []⟩

/-- C6 witness: with two generated artifacts the consensus tool receives
both paths and the original input, and the metalig artifact is converted. -/
theorem c6_consensus_fanin_witness :
    ∃ st', alignment_consensus allOKEnv c6wState "/out/p" "/bin/readal"
        ["a1", "a2"] = .ok "/out/p.alg.metalig" st' ∧
      st'.trace = c6wState.trace ++
        [⟨"t_coffee", "-n -aln a1 a2", "/in/seqs.fa", "/out/p.alg.metalig",
          false, true,
          ["/bin/tcof /in/seqs.fa -n -aln a1 a2 -outfile /out/p.alg.metalig"]⟩,
         ⟨"readal", "phylip", "/out/p.alg.metalig", "/out/p.alg.metalig",
          true, true,
          ["/bin/readal -in /out/p.alg.metalig -out /out/p.alg.metalig -phylip"]⟩] :=
  (c6_consensus_fanin allOKEnv c6wState "/out/p" "/bin/readal" "t_coffee"
    "/bin/tcof" "-n" "/in/seqs.fa"
    "/bin/tcof /in/seqs.fa -n -aln a1 a2 -outfile /out/p.alg.metalig"
    ["a1", "a2"] [] (.b false)
    (fun _ => rfl) (fun _ _ => rfl) rfl rfl rfl rfl rfl (by decide) rfl).1
    (by decide)

/-- C10: with more than one generated alignment but no consensus entry in
the configuration, the stage raises no error and builds no consensus: it
takes the first element popped from the generated set, format-converts only
that artifact, and rebinds in_file to it, leaving the other generated
alignments out of the main output path. -/
theorem c10_no_consensus_arbitrary_pick (env : Env) (st : AState)
    (oFile readalBin savedCwd x y : String) (restG : List String) (rv : Value)
    (henv : ∀ c, env.exec c = true)
    (hrepl : getV st.params "replace" = some rv)
    (hnc : hasK st.params "consensus" = false)
    (htrim : hasK st.params "trimming" = false)
    (hrd : isP2 (getV st.params "residue_datatype") = false) :
    ∃ st' e, alignment_post env st oFile readalBin savedCwd (x :: y :: restG)
        = .ok (setV st.params "in_file" (.s x)) st' ∧
      st'.trace = st.trace ++ [e] ∧ e.tool = "readal" ∧ e.inF = x ∧ e.outF = x ∧
      x ∈ (x :: y :: restG) ∧
      getV (setV st.params "in_file" (.s x)) "in_file" = some (.s x) := by
  have hc : ¬ ((decide ((x :: y :: restG).length > 1)
      && hasK st.params "consensus") = true) := by
    rw [hnc]
    simp
  by_cases hg : (lookForFile st.fs x && !truthy rv) = true
  · have hres : alignment_post env st oFile readalBin savedCwd (x :: y :: restG)
        = Outcome.ok (setV st.params "in_file" (.s x))
          ⟨savedCwd, st.fs, setV st.params "in_file" (.s x), st.log,
            st.trace ++ [⟨"readal", "phylip", x, x, truthy rv, false, []⟩]⟩ := by
      simp only [alignment_post, alignment_consensus.eq_def, callStep,
        convertInputFile_Format, alignment_trimProg, alignment_backtrans,
        alignment_trimming.eq_def, alignment_finish, Outcome.bind,
        hrepl, hnc, htrim, hrd, hg, henv, Bool.and_false, Bool.false_and,
        Bool.and_true, Bool.true_and, Bool.not_true, Bool.not_false,
        Bool.false_or, Bool.or_false, Bool.false_eq_true, Bool.true_eq_false,
        decide_True, decide_False, if_true, if_false]
    exact ⟨_, _, hres, rfl, rfl, rfl, rfl, List.mem_cons_self _ _, getV_setV_self _ _ _⟩
  · have hres : alignment_post env st oFile readalBin savedCwd (x :: y :: restG)
        = Outcome.ok (setV st.params "in_file" (.s x))
          ⟨savedCwd, fsWrite st.fs x 1, setV st.params "in_file" (.s x), st.log,
            st.trace ++ [⟨"readal", "phylip", x, x, truthy rv, true,
              [readalBin ++ " -in " ++ x ++ " -out " ++ x ++ " -" ++ "phylip"]⟩]⟩ := by
      have hgf : (lookForFile st.fs x && !truthy rv) = false := by
        simpa using hg
      simp only [alignment_post, alignment_consensus.eq_def, callStep,
        convertInputFile_Format, alignment_trimProg, alignment_backtrans,
        alignment_trimming.eq_def, alignment_finish, Outcome.bind,
        hrepl, hnc, htrim, hrd, hgf, henv, Bool.and_false, Bool.false_and,
        Bool.and_true, Bool.true_and, Bool.not_true, Bool.not_false,
        Bool.false_or, Bool.or_false, Bool.false_eq_true, Bool.true_eq_false,
        decide_True, decide_False, if_true, if_false]
    exact ⟨_, _, hres, rfl, rfl, rfl, rfl, List.mem_cons_self _ _, getV_setV_self _ _ _⟩

/-- C10 witness: two generated artifacts, no consensus entry: the run
succeeds, converts only the popped artifact and rebinds in_file to it. -/
theorem c10_no_consensus_witness :
    ∃ st' e, alignment_post allOKEnv ⟨"/out", [], [("replace", .b false)], [], []⟩
        "/out/p" "/bin/readal" "/home" ["a1", "a2"]
        = .ok (setV [("replace", .b false)] "in_file" (.s "a1")) st' ∧
      st'.trace = [] ++ [e] ∧ e.tool = "readal" ∧ e.inF = "a1" ∧ e.outF = "a1" ∧
      "a1" ∈ (["a1", "a2"] : List String) ∧
      getV (setV [("replace", .b false)] "in_file" (.s "a1")) "in_file"
        = some (.s "a1") :=
  c10_no_consensus_arbitrary_pick allOKEnv
    ⟨"/out", [], [("replace", .b false)], [], []⟩ "/out/p" "/bin/readal"
    "/home" "a1" "a2" [] (.b false) (fun _ => rfl) rfl rfl rfl rfl

/- ***** C3: the staleness flag across one run ***** -/

/-- The failing configuration for the staleness-promotion contract: one
aligner, forward only, prot2codon back-translation and trimming configured,
replace initially false. -/
def trimRunParams : Params :=
  [("out_directory", .s "/out"), ("prefix", .s "p"), ("replace", .b false),
   ("in_file", .s "/in/seqs"), ("alignment", .l ["muscle"]),
   ("muscle", .s "muscle"), ("readal", .s "readal"),
   ("both_direction", .b false), ("residue_datatype", .s "prot2codon"),
   ("cds", .s "/in/cds"), ("trimming", .l ["trimal"]), ("trimal", .s "trimal")]

/-- Pre-existing artifacts of the failing run: the alignment, its
back-translation and the stale trimmed cds artifact exist; the trimmed
alignment itself is missing. -/
def trimRunFs : FS :=
  [("/out/p.alg.forward.msl", 1), ("/out/p.alg.forward.msl_cds", 1),
   ("/out/p.alg.clean_cds", 1)]

/-- Environment of the failing run: three sequences without rare residues,
every external tool succeeds. -/
def trimRunEnv : Env :=
  ⟨fun _ => true, fun _ _ => true,
   fun _ => [("s1", ['M']), ("s2", ['M']), ("s3", ['M'])]⟩

/-- Starting state of the failing run. -/
def trimRunState : AState := ⟨"/home", trimRunFs, trimRunParams, [], []⟩

/-- C3 at the failing input: the fifth step of the run (the trimming of the
clean alignment) regenerates its artifact while invoked with replace = false,
yet the following step (the cds trimming) is still invoked with
replace = false and reuses its stale artifact, and the replace entry of the
returned dictionary is still false: the promotion contract is broken because
the source discards the trimming return values. -/
theorem c3_trimming_regeneration_not_promoted :
    ((traceOf (alignment trimRunEnv trimRunState)).get? 4).map
        (fun e => (e.outF, e.regenerated, e.replacePassed))
      = some ("/out/p.alg.clean", true, false) ∧
    ((traceOf (alignment trimRunEnv trimRunState)).get? 5).map
        (fun e => (e.outF, e.replacePassed, e.regenerated))
      = some ("/out/p.alg.clean_cds", false, false) ∧
    getV (paramsOfD (alignment trimRunEnv trimRunState)) "replace"
      = some (.b false) := by
  decide

/- ***** C9: working-directory scoping and the configuration frame ***** -/

/-- Whether the run ended in an early process termination. -/
def isExit : Outcome Params → Bool
  | .ok _ _ => false
  | .exit _ _ => true

/-- C9 counterexample: a failing run (insufficient sequences) terminates with
the working directory still set to the output directory, not restored to the
entry directory; the source has no finally-style restoration on its exit
paths. -/
theorem c9_cwd_not_restored_on_failure :
    isExit (alignment insufEnv insufState) = true ∧
    cwdOf (alignment insufEnv insufState) = "/out" ∧
    insufState.cwd = "/home" := by
  decide

/-- The dictionary keys the stage rebinds: the final artifact, the staleness
flag and the two normalized options. -/
def mutKeys : List String :=
  ["in_file", "replace", "both_direction", "residue_datatype"]

/-- Agreement of two dictionaries outside the rebound keys. -/
def otherKeysEq (p q : Params) : Prop :=
  ∀ k, k ∉ mutKeys → getV p k = getV q k

lemma otherKeysEq_refl (p : Params) : otherKeysEq p p := fun _ _ => rfl

lemma otherKeysEq_trans {p q r : Params}
    (h1 : otherKeysEq p q) (h2 : otherKeysEq q r) : otherKeysEq p r :=
  fun k hk => (h1 k hk).trans (h2 k hk)

lemma otherKeysEq_setV (p : Params) (k : String) (v : Value)
    (hk : k ∈ mutKeys) : otherKeysEq (setV p k v) p :=
  fun q hq => getV_setV_other p k q v (fun e => hq (e ▸ hk))

lemma bind_ok {α β : Type} {o : Outcome α} {f : α → AState → Outcome β}
    {b : β} {st2 : AState} (h : Outcome.bind o f = .ok b st2) :
    ∃ a st1, o = .ok a st1 ∧ f a st1 = .ok b st2 := by
  cases o with
  | ok a st => exact ⟨a, st, rfl, h⟩
  | exit e st => simp [Outcome.bind] at h

/-- The composite frame property of one phase: the working directory is kept
and only the rebound keys of the dictionary change. -/
def phaseFrame (st st' : AState) : Prop :=
  st'.cwd = st.cwd ∧ otherKeysEq st'.params st.params ∧
    ∃ l, st'.trace = st.trace ++ l

lemma phaseFrame_refl (st : AState) : phaseFrame st st :=
  ⟨rfl, otherKeysEq_refl _, [], (List.append_nil _).symm⟩

lemma phaseFrame_trans {st1 st2 st3 : AState}
    (h1 : phaseFrame st1 st2) (h2 : phaseFrame st2 st3) : phaseFrame st1 st3 := by
  rcases h1 with ⟨hc1, ho1, l1, ht1⟩
  rcases h2 with ⟨hc2, ho2, l2, ht2⟩
  exact ⟨hc2.trans hc1, otherKeysEq_trans ho2 ho1, l1 ++ l2,
    by rw [ht2, ht1, List.append_assoc]⟩

lemma callStep_frame {st : AState} {tool args inF outF : String}
    {promote : Bool} {step : Bool → FS → Except Nat StepOut}
    {b : Bool} {st' : AState}
    (h : callStep st tool args inF outF promote step = .ok b st') :
    phaseFrame st st' := by
  simp only [callStep] at h
  split at h
  · exact absurd h (by simp)
  · split at h
    · exact absurd h (by simp)
    · split at h
      · injection h with h1 h2
        subst h2
        exact ⟨rfl, otherKeysEq_setV _ _ _ (by simp [mutKeys]), _, rfl⟩
      · injection h with h1 h2
        subst h2
        exact ⟨rfl, otherKeysEq_refl _, _, rfl⟩

lemma normBothDirection_frame (st : AState) :
    phaseFrame st (normBothDirection st) := by
  rw [normBothDirection.eq_def]
  split
  · exact ⟨rfl, otherKeysEq_setV _ _ _ (by simp [mutKeys]), [],
      (List.append_nil _).symm⟩
  · exact phaseFrame_refl _

lemma alignment_checks_frame {st st' : AState} {u : Unit}
    (h : alignment_checks st = .ok u st') : phaseFrame st st' := by
  simp only [alignment_checks] at h
  split at h
  · exact absurd h (by simp)
  · have hstm : phaseFrame st (normBothDirection st) := normBothDirection_frame st
    split at h
    · exact absurd h (by simp)
    · split at h
      · exact absurd h (by simp)
      · split at h
        · exact absurd h (by simp)
        · split at h
          · exact absurd h (by simp)
          · split at h
            · split at h
              · exact absurd h (by simp)
              · split at h
                · exact absurd h (by simp)
                · split at h
                  · injection h with e1 e2
                    subst e2
                    exact phaseFrame_trans hstm
                      ⟨rfl, otherKeysEq_setV _ _ _ (by simp [mutKeys]), [],
                        (List.append_nil _).symm⟩
                  · injection h with e1 e2
                    subst e2
                    exact hstm
            · split at h
              · injection h with e1 e2
                subst e2
                exact phaseFrame_trans hstm
                  ⟨rfl, otherKeysEq_setV _ _ _ (by simp [mutKeys]), [],
                    (List.append_nil _).symm⟩
              · injection h with e1 e2
                subst e2
                exact hstm
  · exact absurd h (by simp)

lemma alignment_countGate_frame {env : Env} {st st' : AState}
    {c : Nat × Bool × Bool}
    (h : alignment_countGate env st = .ok c st') : phaseFrame st st' := by
  simp only [alignment_countGate] at h
  split at h
  · split at h
    · exact absurd h (by simp)
    · split at h
      · exact absurd h (by simp)
      · injection h with e1 e2
        subst e2
        exact phaseFrame_refl _
  · exact absurd h (by simp)

lemma alignment_preprocess_frame {env : Env} {st st' : AState}
    {oFile inFile readalBin : String} {bothDir selenocys pyrrolys : Bool}
    {u : Unit}
    (h : alignment_preprocess env st oFile inFile readalBin bothDir
      selenocys pyrrolys = .ok u st') : phaseFrame st st' := by
  rw [alignment_preprocess] at h
  rcases bind_ok h with ⟨a, st1, h1, h2⟩
  have hf1 : phaseFrame st st1 := by
    split at h1
    · rcases bind_ok h1 with ⟨b, stb, hb1, hb2⟩
      injection hb2 with e1 e2
      subst e2
      exact callStep_frame hb1
    · injection h1 with e1 e2
      subst e2
      exact phaseFrame_refl _
  have hf2 : phaseFrame st1 st' := by
    split at h2
    · split at h2
      · rcases bind_ok h2 with ⟨b, stb, hb1, hb2⟩
        have hfb : phaseFrame st1 stb := callStep_frame hb1
        split at hb2
        · rcases bind_ok hb2 with ⟨d, stc, hc1, hc2⟩
          injection hc2 with e1 e2
          subst e2
          exact phaseFrame_trans hfb (callStep_frame hc1)
        · injection hb2 with e1 e2
          subst e2
          exact hfb
      · exact absurd h2 (by simp)
    · injection h2 with e1 e2
      subst e2
      exact phaseFrame_refl _
  exact phaseFrame_trans hf1 hf2

lemma alignment_oneDirec_frame {env : Env} {st st' : AState}
    {oFile origInFile readalBin prog binary progParams ext direc : String}
    {rare : Bool} {gen gen2 : List String}
    (h : alignment_oneDirec env st oFile origInFile readalBin rare
      prog binary progParams ext direc gen = .ok gen2 st') :
    phaseFrame st st' := by
  rw [alignment_oneDirec] at h
  rcases bind_ok h with ⟨a, stA, hA, hRest⟩
  have hfA : phaseFrame st stA := callStep_frame hA
  rcases bind_ok hRest with ⟨outF, stB, hB, hC⟩
  have hfB : phaseFrame stA stB := by
    split at hB
    · split at hB
      · rcases bind_ok hB with ⟨b, stb, hb1, hb2⟩
        injection hb2 with e1 e2
        subst e2
        exact callStep_frame hb1
      · exact absurd hB (by simp)
    · injection hB with e1 e2
      subst e2
      exact phaseFrame_refl _
  have hfC : phaseFrame stB st' := by
    split at hC
    · rcases bind_ok hC with ⟨d, stc, hc1, hc2⟩
      injection hc2 with e1 e2
      subst e2
      exact callStep_frame hc1
    · injection hC with e1 e2
      subst e2
      exact phaseFrame_refl _
  exact phaseFrame_trans (phaseFrame_trans hfA hfB) hfC

lemma alignment_direcLoop_frame {env : Env}
    {oFile origInFile readalBin prog binary progParams ext : String}
    {rare : Bool} :
    ∀ {direcs : List String} {st st' : AState} {gen gen2 : List String},
    alignment_direcLoop env oFile origInFile readalBin rare prog binary
      progParams ext direcs st gen = .ok gen2 st' → phaseFrame st st' := by
  intro direcs
  induction direcs with
  | nil =>
    intro st st' gen gen2 h
    injection h with e1 e2
    subst e2
    exact phaseFrame_refl _
  | cons d rest ih =>
    intro st st' gen gen2 h
    rw [alignment_direcLoop] at h
    rcases bind_ok h with ⟨g1, st1, h1, h2⟩
    exact phaseFrame_trans (alignment_oneDirec_frame h1) (ih h2)

lemma alignment_progLoop_frame {env : Env}
    {oFile origInFile readalBin : String} {rare : Bool}
    {direcs : List String} :
    ∀ {progs : List String} {st st' : AState} {gen gen2 : List String},
    alignment_progLoop env oFile origInFile readalBin rare direcs progs st gen
      = .ok gen2 st' → phaseFrame st st' := by
  intro progs
  induction progs with
  | nil =>
    intro st st' gen gen2 h
    injection h with e1 e2
    subst e2
    exact phaseFrame_refl _
  | cons prog rest ih =>
    intro st st' gen gen2 h
    rw [alignment_progLoop] at h
    split at h
    · rcases bind_ok h with ⟨g1, st1, h1, h2⟩
      exact phaseFrame_trans (alignment_direcLoop_frame h1) (ih h2)
    · exact absurd h (by simp)

lemma alignment_consensus_frame {env : Env} {st st' : AState}
    {oFile readalBin outF : String} {gen : List String}
    (h : alignment_consensus env st oFile readalBin gen = .ok outF st') :
    phaseFrame st st' := by
  simp only [alignment_consensus] at h
  split at h
  · split at h
    · split at h
      · exact absurd h (by simp)
      · split at h
        · split at h
          · rcases bind_ok h with ⟨b, stb, hb1, hb2⟩
            rcases bind_ok hb2 with ⟨d, stc, hc1, hc2⟩
            injection hc2 with e1 e2
            subst e2
            exact phaseFrame_trans (callStep_frame hb1) (callStep_frame hc1)
          · exact absurd h (by simp)
        · exact absurd h (by simp)
    · exact absurd h (by simp)
  · split at h
    · exact absurd h (by simp)
    · rcases bind_ok h with ⟨b, stb, hb1, hb2⟩
      injection hb2 with e1 e2
      subst e2
      exact callStep_frame hb1

lemma alignment_trimProg_frame {st st' : AState}
    {pb : Option (String × String)}
    (h : alignment_trimProg st = .ok pb st') : phaseFrame st st' := by
  simp only [alignment_trimProg] at h
  split at h
  · split at h
    · split at h
      · exact absurd h (by simp)
      · split at h
        · injection h with e1 e2
          subst e2
          exact phaseFrame_refl _
        · exact absurd h (by simp)
    · exact absurd h (by simp)
  · injection h with e1 e2
    subst e2
    exact phaseFrame_refl _

lemma alignment_backtrans_frame {env : Env} {st st' : AState}
    {readalBin out_file : String} {pb : Option (String × String)} {u : Unit}
    (h : alignment_backtrans env st readalBin pb out_file = .ok u st') :
    phaseFrame st st' := by
  simp only [alignment_backtrans] at h
  split at h
  · split at h
    · split at h
      · rcases bind_ok h with ⟨b, stb, hb1, hb2⟩
        rcases bind_ok hb2 with ⟨d, stc, hc1, hc2⟩
        injection hc2 with e1 e2
        subst e2
        exact phaseFrame_trans (callStep_frame hb1) (callStep_frame hc1)
      · exact absurd h (by simp)
    · exact absurd h (by simp)
  · injection h with e1 e2
    subst e2
    exact phaseFrame_refl _

lemma alignment_trimming_frame {env : Env} {st st' : AState}
    {oFile out_file outF2 : String} {pb : Option (String × String)}
    {gen : List String}
    (h : alignment_trimming env st oFile pb gen out_file = .ok outF2 st') :
    phaseFrame st st' := by
  simp only [alignment_trimming] at h
  split at h
  · split at h
    · split at h
      · exact absurd h (by simp)
      · split at h
        · split at h
          · rcases bind_ok h with ⟨b, stb, hb1, hb2⟩
            have hfb : phaseFrame st stb := phaseFrame_trans
              (⟨rfl, otherKeysEq_refl _, [], (List.append_nil _).symm⟩ :
                phaseFrame st
                  { st with fs := fsWrite st.fs (oFile ++ ".alg.paths") 1 })
              (callStep_frame hb1)
            split at hb2
            · split at hb2
              · rcases bind_ok hb2 with ⟨d, stc, hc1, hc2⟩
                injection hc2 with e1 e2
                subst e2
                exact phaseFrame_trans hfb (callStep_frame hc1)
              · exact absurd hb2 (by simp)
            · injection hb2 with e1 e2
              subst e2
              exact hfb
          · rcases bind_ok h with ⟨b, stb, hb1, hb2⟩
            have hfb : phaseFrame st stb := callStep_frame hb1
            split at hb2
            · split at hb2
              · rcases bind_ok hb2 with ⟨d, stc, hc1, hc2⟩
                injection hc2 with e1 e2
                subst e2
                exact phaseFrame_trans hfb (callStep_frame hc1)
              · exact absurd hb2 (by simp)
            · injection hb2 with e1 e2
              subst e2
              exact hfb
        · exact absurd h (by simp)
    · exact absurd h (by simp)
  · injection h with e1 e2
    subst e2
    exact phaseFrame_refl _

/-- Between the two states the run appended at least one step invocation and
the last one has the given destination artifact. -/
def lastOut (st st' : AState) (v : String) : Prop :=
  ∃ l e, st'.trace = st.trace ++ (l ++ [e]) ∧ StepCall.outF e = v

lemma lastOut_of_callStep {st : AState} {tool args inF outF : String}
    {promote : Bool} {step : Bool → FS → Except Nat StepOut}
    {b : Bool} {st' : AState}
    (h : callStep st tool args inF outF promote step = .ok b st') :
    lastOut st st' outF := by
  simp only [callStep] at h
  split at h
  · exact absurd h (by simp)
  · split at h
    · exact absurd h (by simp)
    · split at h
      · injection h with h1 h2
        subst h2
        exact ⟨[], _, rfl, rfl⟩
      · injection h with h1 h2
        subst h2
        exact ⟨[], _, rfl, rfl⟩

lemma lastOut_extend {st st2 st3 : AState} {v : String}
    (h1 : phaseFrame st st2) (h2 : lastOut st2 st3 v) : lastOut st st3 v := by
  rcases h1 with ⟨-, -, l1, ht1⟩
  rcases h2 with ⟨l2, e, ht2, he⟩
  refine ⟨l1 ++ l2, e, ?_, he⟩
  rw [ht2, ht1]
  simp only [List.append_assoc]

lemma lastOut_keep {st st2 st3 : AState} {v : String}
    (h1 : lastOut st st2 v) (h2 : st3.trace = st2.trace) : lastOut st st3 v := by
  rcases h1 with ⟨l, e, ht, he⟩
  exact ⟨l, e, by rw [h2, ht], he⟩

/-- The consensus-or-pick phase always ends with a step invocation whose
destination artifact is the out_file it returns (the metalig conversion, or
the conversion of the popped artifact). -/
lemma alignment_consensus_lastOut {env : Env} {st st' : AState}
    {oFile readalBin outF : String} {gen : List String}
    (h : alignment_consensus env st oFile readalBin gen = .ok outF st') :
    lastOut st st' outF := by
  simp only [alignment_consensus] at h
  split at h
  · split at h
    · split at h
      · exact absurd h (by simp)
      · split at h
        · split at h
          · rcases bind_ok h with ⟨b, stb, hb1, hb2⟩
            rcases bind_ok hb2 with ⟨d, stc, hc1, hc2⟩
            injection hc2 with e1 e2
            subst e1
            subst e2
            exact lastOut_extend (callStep_frame hb1) (lastOut_of_callStep hc1)
          · exact absurd h (by simp)
        · exact absurd h (by simp)
    · exact absurd h (by simp)
  · split at h
    · exact absurd h (by simp)
    · rcases bind_ok h with ⟨b, stb, hb1, hb2⟩
      injection hb2 with e1 e2
      subst e1
      subst e2
      exact lastOut_of_callStep hb1

/-- A successful trimming-program resolution leaves the state untouched and
says either that neither back-translation nor trimming applies, or that the
trimming entry is configured (and resolved). -/
lemma alignment_trimProg_ok {st st' : AState} {pb : Option (String × String)}
    (h : alignment_trimProg st = .ok pb st') :
    st' = st ∧
      ((isP2 (getV st.params "residue_datatype") = false ∧
        hasK st.params "trimming" = false) ∨
       ∃ pr b0 rest2, pb = some (pr, b0) ∧
         getV st.params "trimming" = some (.l (pr :: rest2))) := by
  simp only [alignment_trimProg] at h
  split at h
  · split at h
    · rename_i prog tail heq
      split at h
      · exact absurd h (by simp)
      · split at h
        · rename_i binary heq2
          injection h with e1 e2
          exact ⟨e2.symm, Or.inr ⟨prog, binary, tail, e1.symm, heq⟩⟩
        · exact absurd h (by simp)
    · exact absurd h (by simp)
  · rename_i hcond
    injection h with e1 e2
    have hb : isP2 (getV st.params "residue_datatype") = false ∧
        hasK st.params "trimming" = false := by
      simpa using hcond
    exact ⟨e2.symm, Or.inl hb⟩

/-- When back-translation does not apply the phase is the identity. -/
lemma alignment_backtrans_skip {env : Env} {st st' : AState}
    {readalBin out_file : String} {pb : Option (String × String)} {u : Unit}
    (hp2 : isP2 (getV st.params "residue_datatype") = false)
    (h : alignment_backtrans env st readalBin pb out_file = .ok u st') :
    st' = st := by
  simp only [alignment_backtrans] at h
  rw [if_neg (by rw [hp2]; exact Bool.false_ne_true)] at h
  injection h with e1 e2
  exact e2.symm

/-- The trimming phase either does not apply (no trimming entry; the state
and the out_file pass through) or ends with a step invocation whose
destination artifact is the final out_file it returns. -/
lemma alignment_trimming_cases {env : Env} {st st' : AState}
    {oFile out_file outF2 : String} {pb : Option (String × String)}
    {gen : List String}
    (h : alignment_trimming env st oFile pb gen out_file = .ok outF2 st') :
    (hasK st.params "trimming" = false ∧ st' = st ∧ outF2 = out_file) ∨
      lastOut st st' outF2 := by
  simp only [alignment_trimming] at h
  split at h
  · right
    split at h
    · split at h
      · exact absurd h (by simp)
      · split at h
        · split at h
          · rcases bind_ok h with ⟨b, stb, hb1, hb2⟩
            have hfb : phaseFrame st stb := phaseFrame_trans
              (⟨rfl, otherKeysEq_refl _, [], (List.append_nil _).symm⟩ :
                phaseFrame st
                  { st with fs := fsWrite st.fs (oFile ++ ".alg.paths") 1 })
              (callStep_frame hb1)
            split at hb2
            · split at hb2
              · rcases bind_ok hb2 with ⟨d, stc, hc1, hc2⟩
                injection hc2 with e1 e2
                subst e1
                subst e2
                exact lastOut_extend hfb (lastOut_of_callStep hc1)
              · exact absurd hb2 (by simp)
            · injection hb2 with e1 e2
              subst e1
              subst e2
              exact lastOut_extend
                (⟨rfl, otherKeysEq_refl _, [], (List.append_nil _).symm⟩ :
                  phaseFrame st
                    { st with fs := fsWrite st.fs (oFile ++ ".alg.paths") 1 })
                (lastOut_of_callStep hb1)
          · rcases bind_ok h with ⟨b, stb, hb1, hb2⟩
            split at hb2
            · split at hb2
              · rcases bind_ok hb2 with ⟨d, stc, hc1, hc2⟩
                injection hc2 with e1 e2
                subst e1
                subst e2
                exact lastOut_extend (callStep_frame hb1) (lastOut_of_callStep hc1)
              · exact absurd hb2 (by simp)
            · injection hb2 with e1 e2
              subst e1
              subst e2
              exact lastOut_of_callStep hb1
        · exact absurd h (by simp)
    · exact absurd h (by simp)
  · rename_i hcond
    injection h with e1 e2
    exact Or.inl ⟨by simpa using hcond, e2.symm, e1.symm⟩

/-- On success the post-loop phase binds in_file to the destination artifact
of its last step invocation: the converted consensus/popped artifact when no
trimming applies, the trimmed (possibly cds) artifact otherwise. -/
lemma alignment_post_last {env : Env} {st st' : AState}
    {oFile readalBin savedCwd : String} {gen : List String} {p : Params}
    (h : alignment_post env st oFile readalBin savedCwd gen = .ok p st') :
    ∃ outF, getV p "in_file" = some (.s outF) ∧ lastOut st st' outF := by
  simp only [alignment_post] at h
  rcases bind_ok h with ⟨outF0, st1, h1, h2⟩
  rcases bind_ok h2 with ⟨pb, st2, h3, h4⟩
  rcases bind_ok h4 with ⟨u, st3, h5, h6⟩
  rcases bind_ok h6 with ⟨outF2, st4, h7, h8⟩
  rw [alignment_finish] at h8
  injection h8 with e1 e2
  subst e2
  have hlast1 : lastOut st st1 outF0 := alignment_consensus_lastOut h1
  rcases alignment_trimProg_ok h3 with ⟨he2, hcase⟩
  rw [he2] at h5
  have hfb : phaseFrame st1 st3 := alignment_backtrans_frame h5
  rcases alignment_trimming_cases h7 with ⟨hk, he3, he4⟩ | hl
  · subst he3
    subst he4
    rcases hcase with ⟨hp2, hkt⟩ | ⟨pr, b0, rest2, hpb, htr⟩
    · have he31 : st4 = st1 := alignment_backtrans_skip hp2 h5
      refine ⟨outF2, by rw [← e1]; exact getV_setV_self _ _ _, ?_⟩
      exact lastOut_keep hlast1 (by rw [he31])
    · exfalso
      have htr3 : getV st4.params "trimming" = getV st1.params "trimming" :=
        hfb.2.1 "trimming" (by simp [mutKeys])
      rw [hasK, htr3, htr] at hk
      simp at hk
  · refine ⟨outF2, by rw [← e1]; exact getV_setV_self _ _ _, ?_⟩
    have hf1 : phaseFrame st st3 :=
      phaseFrame_trans (alignment_consensus_frame h1) hfb
    exact lastOut_keep (lastOut_extend hf1 hl) rfl

lemma alignment_post_frame {env : Env} {st st' : AState}
    {oFile readalBin savedCwd : String} {gen : List String} {p : Params}
    (h : alignment_post env st oFile readalBin savedCwd gen = .ok p st') :
    st'.cwd = savedCwd ∧ st'.params = p ∧ otherKeysEq p st.params ∧
      ∃ outF, getV p "in_file" = some (.s outF) := by
  rw [alignment_post] at h
  rcases bind_ok h with ⟨outF, st1, h1, h2⟩
  rcases bind_ok h2 with ⟨pb, st2, h3, h4⟩
  rcases bind_ok h4 with ⟨u, st3, h5, h6⟩
  rcases bind_ok h6 with ⟨outF2, st4, h7, h8⟩
  have hf : phaseFrame st st4 :=
    phaseFrame_trans (phaseFrame_trans (phaseFrame_trans
      (alignment_consensus_frame h1) (alignment_trimProg_frame h3))
      (alignment_backtrans_frame h5)) (alignment_trimming_frame h7)
  rw [alignment_finish] at h8
  injection h8 with e1 e2
  subst e1
  subst e2
  refine ⟨rfl, rfl, ?_, _, getV_setV_self _ _ _⟩
  exact otherKeysEq_trans (otherKeysEq_setV _ _ _ (by simp [mutKeys])) hf.2.1

/-- C9 (amended): on the single successful return path the stage restores
the entry working directory and leaves every configuration entry except
in_file, the staleness flag and the two normalized options unchanged, with
in_file rebound to the final produced artifact path: the returned dictionary
maps in_file to the destination artifact of the last helper invocation of
the run (the last entry of the trace).  On the failure paths the process
terminates by exit with the working directory still switched (see the
counterexample). -/
theorem c9_frame_on_success (env : Env) (st0 st1 : AState) (p : Params)
    (h : alignment env st0 = .ok p st1) :
    st1.cwd = st0.cwd ∧ st1.params = p ∧
    (∀ k, k ∉ mutKeys → getV p k = getV st0.params k) ∧
    ∃ outF, getV p "in_file" = some (.s outF) ∧
      ∃ l e, st1.trace = st0.trace ++ (l ++ [e]) ∧ StepCall.outF e = outF := by
  rw [alignment] at h
  split at h
  · rcases bind_ok h with ⟨u, stA, hA, hB⟩
    have hfA : phaseFrame { st0 with cwd := _ } stA := alignment_checks_frame hA
    split at hB
    · rcases bind_ok hB with ⟨c, stB, hC, hD⟩
      have hfB : phaseFrame stA stB := alignment_countGate_frame hC
      rcases bind_ok hD with ⟨u2, stC, hE, hF⟩
      have hfC : phaseFrame stB stC := alignment_preprocess_frame hE
      rcases bind_ok hF with ⟨gen, stD, hG, hH⟩
      have hfD : phaseFrame stC stD := alignment_progLoop_frame hG
      rcases alignment_post_frame hH with ⟨hcwd, hparams, hother, -⟩
      rcases alignment_post_last hH with ⟨outF, hin, hlast⟩
      refine ⟨hcwd, hparams, ?_, outF, hin, ?_⟩
      · intro k hk
        exact (hother k hk).trans
          ((hfD.2.1 k hk).trans ((hfC.2.1 k hk).trans
            ((hfB.2.1 k hk).trans (hfA.2.1 k hk))))
      · have hpre : phaseFrame { st0 with cwd := _ } stD :=
          phaseFrame_trans (phaseFrame_trans (phaseFrame_trans hfA hfB) hfC) hfD
        rcases lastOut_extend hpre hlast with ⟨l, e, htr, hout⟩
        exact ⟨l, e, htr, hout⟩
    · exact absurd hB (by simp)
  · exact absurd h (by simp)

/-- C9 witness: the frame property at the concrete successful trimming run:
the entry directory is restored, the untouched keys keep their values, and
in_file is bound to the destination artifact of the last step of the run. -/
theorem c9_frame_witness :
    (stateOfD (alignment trimRunEnv trimRunState)).cwd = trimRunState.cwd ∧
    (stateOfD (alignment trimRunEnv trimRunState)).params
      = paramsOfD (alignment trimRunEnv trimRunState) ∧
    (∀ k, k ∉ mutKeys →
      getV (paramsOfD (alignment trimRunEnv trimRunState)) k
        = getV trimRunState.params k) ∧
    ∃ outF, getV (paramsOfD (alignment trimRunEnv trimRunState)) "in_file"
        = some (.s outF) ∧
      ∃ l e, (stateOfD (alignment trimRunEnv trimRunState)).trace
          = trimRunState.trace ++ (l ++ [e]) ∧ StepCall.outF e = outF :=
  c9_frame_on_success trimRunEnv trimRunState
    (stateOfD (alignment trimRunEnv trimRunState))
    (paramsOfD (alignment trimRunEnv trimRunState)) (by decide)

end Phylomizer
